import Mathlib

/-!
Verification of the `sd-jwt` selective-disclosure core (files `encoder.rs`,
`hasher.rs`, `sd_jwt.rs`) against its natural-language specification.

The development shallowly embeds the library's data model and operations:

* JSON values are modelled by the inductive `Value` (numbers are restricted
  to integers; no claim under scrutiny involves floating point).
* JSON objects (`serde_json::Map<String, Value>`) are modelled as
  insertion-ordered association lists with unique keys; the underlying map
  type is not part of the analysed sources, and none of the verified
  properties depends on the key ordering discipline.
* Rust `Result` values are modelled with `Except`; a Rust panic
  (`unwrap` / `unreachable!`) is modelled by the dedicated
  `Error.panicked` constructor.
* In-place mutation through `&mut` is modelled by explicit state passing:
  each mutating operation returns the new state, and operations that can
  mutate before failing return the (possibly mutated) state alongside the
  error.
-/

/-- Model of `serde_json::Value`, restricted to integer numbers. -/
inductive Value where
  | null
  | bool (b : Bool)
  | num (n : Int)
  | str (s : String)
  | arr (xs : List Value)
  | obj (xs : List (String × Value))
deriving Repr

mutual

def Value.beq : Value → Value → Bool
  | .null, .null => true
  | .bool a, .bool b => a == b
  | .num a, .num b => a == b
  | .str a, .str b => a == b
  | .arr xs, .arr ys => Value.listBeq xs ys
  | .obj xs, .obj ys => Value.objBeq xs ys
  | _, _ => false

def Value.listBeq : List Value → List Value → Bool
  | [], [] => true
  | x :: xs, y :: ys => Value.beq x y && Value.listBeq xs ys
  | _, _ => false

def Value.objBeq : List (String × Value) → List (String × Value) → Bool
  | [], [] => true
  | (k, v) :: xs, (k', v') :: ys => k == k' && Value.beq v v' && Value.objBeq xs ys
  | _, _ => false

end

mutual

theorem Value.beq_iff : ∀ a b : Value, Value.beq a b = true ↔ a = b
  | .null, b => by cases b <;> simp [Value.beq]
  | .bool x, b => by cases b <;> simp [Value.beq]
  | .num x, b => by cases b <;> simp [Value.beq]
  | .str x, b => by cases b <;> simp [Value.beq]
  | .arr xs, b => by
      cases b <;> simp [Value.beq]
      exact Value.listBeq_iff xs _
  | .obj xs, b => by
      cases b <;> simp [Value.beq]
      exact Value.objBeq_iff xs _

theorem Value.listBeq_iff : ∀ xs ys : List Value, Value.listBeq xs ys = true ↔ xs = ys
  | [], ys => by cases ys <;> simp [Value.listBeq]
  | x :: xs, ys => by
      cases ys with
      | nil => simp [Value.listBeq]
      | cons y ys =>
        simp [Value.listBeq, Bool.and_eq_true, Value.beq_iff x y, Value.listBeq_iff xs ys]

theorem Value.objBeq_iff : ∀ xs ys : List (String × Value), Value.objBeq xs ys = true ↔ xs = ys
  | [], ys => by cases ys <;> simp [Value.objBeq]
  | (k, v) :: xs, ys => by
      cases ys with
      | nil => simp [Value.objBeq]
      | cons p ys =>
        cases p with
        | mk k' v' =>
          simp [Value.objBeq, Bool.and_eq_true, Value.beq_iff v v', Value.objBeq_iff xs ys,
            and_assoc]

end

instance : DecidableEq Value := fun a b =>
  decidable_of_iff (Value.beq a b = true) (Value.beq_iff a b)

/-- Model of `JsonObject = serde_json::Map<String, Value>`: an
insertion-ordered association list. Keys are unique for every object built
by the operations below. -/
def JsonObject := List (String × Value)

instance : DecidableEq JsonObject := inferInstanceAs (DecidableEq (List (String × Value)))

instance : Repr JsonObject := inferInstanceAs (Repr (List (String × Value)))

/-- `Map::get`. -/
def JsonObject.get (o : JsonObject) (k : String) : Option Value :=
  match o with
  | [] => none
  | (k', v) :: rest => if k' = k then some v else JsonObject.get rest k

/-- `Map::insert`: replaces the value in place if the key is present,
otherwise appends the new entry. -/
def JsonObject.insert (o : JsonObject) (k : String) (v : Value) : JsonObject :=
  match o with
  | [] => [(k, v)]
  | (k', v') :: rest =>
    if k' = k then (k, v) :: rest else (k', v') :: JsonObject.insert rest k v

/-- `Map::remove`, dropping the entry for `k` (used where the source calls
`remove` and discards or inspects the returned value separately via `get`). -/
def JsonObject.erase (o : JsonObject) (k : String) : JsonObject :=
  match o with
  | [] => []
  | (k', v') :: rest =>
    if k' = k then rest else (k', v') :: JsonObject.erase rest k

/-- `Map::values`. -/
def JsonObject.values (o : JsonObject) : List Value :=
  o.map Prod.snd

/-- `Map::len`. -/
def JsonObject.size (o : JsonObject) : Nat :=
  o.length

theorem JsonObject.get_insert_self (o : JsonObject) (k : String) (v : Value) :
    (o.insert k v).get k = some v := by
  induction o with
  | nil => simp [JsonObject.insert, JsonObject.get]
  | cons p rest ih =>
    obtain ⟨k', v'⟩ := p
    by_cases h : k' = k <;> simp [JsonObject.insert, JsonObject.get, h, ih]

theorem JsonObject.erase_insert_of_get_none (o : JsonObject) (k : String) (v : Value)
    (h : o.get k = none) : (o.insert k v).erase k = o := by
  induction o with
  | nil => simp [JsonObject.insert, JsonObject.erase]
  | cons p rest ih =>
    obtain ⟨k', v'⟩ := p
    by_cases hk : k' = k
    · simp [JsonObject.get, hk] at h
    · simp [JsonObject.get, hk] at h
      simp [JsonObject.insert, JsonObject.erase, hk, ih h]

theorem JsonObject.insert_self_of_get (o : JsonObject) (k : String) (v : Value)
    (h : o.get k = some v) : o.insert k v = o := by
  induction o with
  | nil => simp [JsonObject.get] at h
  | cons p rest ih =>
    obtain ⟨k', v'⟩ := p
    by_cases hk : k' = k
    · simp [JsonObject.get, hk] at h
      simp [JsonObject.insert, hk, h]
    · simp [JsonObject.get, hk] at h
      simp [JsonObject.insert, hk, ih h]

/-! ## Bytes, UTF-8 and base64url

The disclosure and JWT textual formats (spec sections "Disclosure text" and
"Digest encoding") are base64url (unpadded) over UTF-8 bytes. Bytes are
modelled as natural numbers below 256. -/

/-- UTF-8 encoding of a single character. -/
def charUtf8 (c : Char) : List Nat :=
  let n := c.toNat
  if n < 128 then [n]
  else if n < 2048 then [192 + n / 64, 128 + n % 64]
  else if n < 65536 then [224 + n / 4096, 128 + (n / 64) % 64, 128 + n % 64]
  else [240 + n / 262144, 128 + (n / 4096) % 64, 128 + (n / 64) % 64, 128 + n % 64]

/-- UTF-8 encoding of a string. -/
def utf8Bytes (s : String) : List Nat :=
  s.toList.flatMap charUtf8

/-- Is `b` a UTF-8 continuation byte? -/
def isContByte (b : Nat) : Bool :=
  128 ≤ b && b < 192

/-- UTF-8 decoding with fuel (each step consumes at least one byte);
rejects malformed, overlong and surrogate encodings. -/
def utf8DecodeCharsF : Nat → List Nat → Option (List Char)
  | _, [] => some []
  | 0, _ :: _ => none
  | fuel + 1, b :: rest =>
    if b < 128 then
      (utf8DecodeCharsF fuel rest).map (Char.ofNat b :: ·)
    else if b < 194 then none
    else if b < 224 then
      match rest with
      | b1 :: rest' =>
        if isContByte b1 then
          (utf8DecodeCharsF fuel rest').map (Char.ofNat ((b - 192) * 64 + (b1 - 128)) :: ·)
        else none
      | _ => none
    else if b < 240 then
      match rest with
      | b1 :: b2 :: rest' =>
        let cp := (b - 224) * 4096 + (b1 - 128) * 64 + (b2 - 128)
        if isContByte b1 && isContByte b2 && decide (2048 ≤ cp) &&
            !(decide (55296 ≤ cp) && decide (cp < 57344)) then
          (utf8DecodeCharsF fuel rest').map (Char.ofNat cp :: ·)
        else none
      | _ => none
    else if b < 245 then
      match rest with
      | b1 :: b2 :: b3 :: rest' =>
        let cp := (b - 240) * 262144 + (b1 - 128) * 4096 + (b2 - 128) * 64 + (b3 - 128)
        if isContByte b1 && isContByte b2 && isContByte b3 &&
            decide (65536 ≤ cp) && decide (cp ≤ 1114111) then
          (utf8DecodeCharsF fuel rest').map (Char.ofNat cp :: ·)
        else none
      | _ => none
    else none

/-- UTF-8 decoding to a string. -/
def utf8DecodeString (bs : List Nat) : Option String :=
  (utf8DecodeCharsF bs.length bs).map String.mk

/-- The base64url alphabet (RFC 4648 section 5). -/
def b64Char (n : Nat) : Char :=
  if n < 26 then Char.ofNat (65 + n)
  else if n < 52 then Char.ofNat (97 + (n - 26))
  else if n < 62 then Char.ofNat (48 + (n - 52))
  else if n = 62 then '-'
  else '_'

/-- Index of a character in the base64url alphabet. -/
def b64Index (c : Char) : Option Nat :=
  let n := c.toNat
  if 65 ≤ n ∧ n ≤ 90 then some (n - 65)
  else if 97 ≤ n ∧ n ≤ 122 then some (n - 97 + 26)
  else if 48 ≤ n ∧ n ≤ 57 then some (n - 48 + 52)
  else if c = '-' then some 62
  else if c = '_' then some 63
  else none

/-- Unpadded base64url encoding of a byte list, as characters. -/
def b64EncodeChars : List Nat → List Char
  | b1 :: b2 :: b3 :: rest =>
    b64Char (b1 / 4) :: b64Char ((b1 % 4) * 16 + b2 / 16) ::
      b64Char ((b2 % 16) * 4 + b3 / 64) :: b64Char (b3 % 64) :: b64EncodeChars rest
  | [b1, b2] =>
    [b64Char (b1 / 4), b64Char ((b1 % 4) * 16 + b2 / 16), b64Char ((b2 % 16) * 4)]
  | [b1] =>
    [b64Char (b1 / 4), b64Char ((b1 % 4) * 16)]
  | [] => []

/-- Unpadded base64url encoding of a byte list. -/
def base64UrlEncode (bs : List Nat) : String :=
  String.mk (b64EncodeChars bs)

/-- Unpadded base64url decoding (by character indices). -/
def b64DecodeIndices : List Nat → Option (List Nat)
  | i1 :: i2 :: i3 :: i4 :: rest =>
    (b64DecodeIndices rest).map
      (fun bs => (i1 * 4 + i2 / 16) :: ((i2 % 16) * 16 + i3 / 4) :: ((i3 % 4) * 64 + i4) :: bs)
  | [i1, i2, i3] => some [i1 * 4 + i2 / 16, (i2 % 16) * 16 + i3 / 4]
  | [i1, i2] => some [i1 * 4 + i2 / 16]
  | [_] => none
  | [] => some []

/-- Effectful map over a list in the `Option` monad (explicit structural
recursion for ease of reasoning). -/
def optionMapM {α β : Type} (f : α → Option β) : List α → Option (List β)
  | [] => some []
  | a :: as =>
    match f a with
    | some b => (optionMapM f as).map (b :: ·)
    | none => none

/-- Effectful map over a list in the `Except` monad. -/
def exceptMapM {ε α β : Type} (f : α → Except ε β) : List α → Except ε (List β)
  | [] => .ok []
  | a :: as =>
    match f a with
    | .ok b =>
      match exceptMapM f as with
      | .ok bs => .ok (b :: bs)
      | .error e => .error e
    | .error e => .error e

/-- Unpadded base64url decoding of a string to bytes. -/
def base64UrlDecode (s : String) : Option (List Nat) := do
  let idxs ← optionMapM b64Index s.toList
  b64DecodeIndices idxs

/-! ## JSON serialization (model of `serde_json::to_string`, compact form) -/

/-- Lowercase hex digit. -/
def hexDigit (n : Nat) : Char :=
  if n < 10 then Char.ofNat (48 + n) else Char.ofNat (97 + (n - 10))

/-- JSON string-character escaping as performed by `serde_json`. -/
def jsonEscapeChar (c : Char) : List Char :=
  if c = '"' then ['\\', '"']
  else if c = '\\' then ['\\', '\\']
  else if c.toNat < 32 then
    match c.toNat with
    | 8 => ['\\', 'b']
    | 9 => ['\\', 't']
    | 10 => ['\\', 'n']
    | 12 => ['\\', 'f']
    | 13 => ['\\', 'r']
    | n => ['\\', 'u', '0', '0', hexDigit (n / 16), hexDigit (n % 16)]
  else [c]

/-- JSON serialization of a string literal. -/
def jsonSerString (s : String) : String :=
  "\"" ++ String.mk (s.toList.flatMap jsonEscapeChar) ++ "\""

mutual

/-- Compact JSON serialization of a value (`serde_json::to_string`). -/
def jsonSer : Value → String
  | .null => "null"
  | .bool true => "true"
  | .bool false => "false"
  | .num n => toString n
  | .str s => jsonSerString s
  | .arr xs => "[" ++ jsonSerList xs ++ "]"
  | .obj xs => "\x7b" ++ jsonSerObj xs ++ "\x7d"

def jsonSerList : List Value → String
  | [] => ""
  | [x] => jsonSer x
  | x :: xs => jsonSer x ++ "," ++ jsonSerList xs

def jsonSerObj : List (String × Value) → String
  | [] => ""
  | [(k, v)] => jsonSerString k ++ ":" ++ jsonSer v
  | (k, v) :: xs => jsonSerString k ++ ":" ++ jsonSer v ++ "," ++ jsonSerObj xs

end

/-! ## JSON parsing (model of `serde_json::from_str`)

Fuel-based recursive-descent parser. Faithful to `serde_json` except that
numbers are restricted to integers (inputs containing fractional or exponent
parts are rejected rather than parsed as floats) and `\u` escapes in the
surrogate range are rejected. No analysed claim involves either feature. -/

/-- The `{` character, written via its code point to keep braces out of
string and character literals. -/
def lbraceChar : Char := Char.ofNat 123

/-- The `}` character. -/
def rbraceChar : Char := Char.ofNat 125

/-- Skip JSON whitespace. -/
def skipWs : List Char → List Char
  | c :: rest =>
    if c = ' ' ∨ c = '\t' ∨ c = '\n' ∨ c = '\r' then skipWs rest else c :: rest
  | [] => []

/-- Hex digit value. -/
def hexVal (c : Char) : Option Nat :=
  let n := c.toNat
  if 48 ≤ n ∧ n ≤ 57 then some (n - 48)
  else if 97 ≤ n ∧ n ≤ 102 then some (n - 97 + 10)
  else if 65 ≤ n ∧ n ≤ 70 then some (n - 65 + 10)
  else none

/-- Parse the body of a JSON string literal (after the opening quote),
with fuel (each step consumes at least one character). -/
def pStringBodyF : Nat → List Char → Option (String × List Char)
  | _, [] => none
  | 0, _ :: _ => none
  | fuel + 1, c :: rest =>
    if c = '"' then some ("", rest)
    else if c = '\\' then
      match rest with
      | [] => none
      | e :: rest' =>
        let simpleEsc : Option Char :=
          if e = '"' then some '"'
          else if e = '\\' then some '\\'
          else if e = '/' then some '/'
          else if e = 'b' then some (Char.ofNat 8)
          else if e = 'f' then some (Char.ofNat 12)
          else if e = 'n' then some '\n'
          else if e = 'r' then some '\r'
          else if e = 't' then some '\t'
          else none
        match simpleEsc with
        | some c' => (pStringBodyF fuel rest').map (fun p => (String.mk (c' :: p.1.toList), p.2))
        | none =>
          if e = 'u' then
            match rest' with
            | h1 :: h2 :: h3 :: h4 :: rest'' =>
              match hexVal h1, hexVal h2, hexVal h3, hexVal h4 with
              | some v1, some v2, some v3, some v4 =>
                let cp := v1 * 4096 + v2 * 256 + v3 * 16 + v4
                if 55296 ≤ cp ∧ cp < 57344 then none
                else (pStringBodyF fuel rest'').map (fun p => (String.mk (Char.ofNat cp :: p.1.toList), p.2))
              | _, _, _, _ => none
            | _ => none
          else none
    else if c.toNat < 32 then none
    else (pStringBodyF fuel rest).map (fun p => (String.mk (c :: p.1.toList), p.2))

/-- Parse the body of a JSON string literal (after the opening quote). -/
def pStringBody (cs : List Char) : Option (String × List Char) :=
  pStringBodyF cs.length cs

/-- Parse a run of decimal digits. -/
def pDigits : List Char → (List Char × List Char)
  | c :: rest =>
    if 48 ≤ c.toNat ∧ c.toNat ≤ 57 then
      let (ds, rest') := pDigits rest
      (c :: ds, rest')
    else ([], c :: rest)
  | [] => ([], [])

/-- Parse a JSON integer literal; rejects leading zeros and any fractional
or exponent part that would make the number a float. -/
def pNumber (cs : List Char) : Option (Int × List Char) :=
  let (neg, cs') : Bool × List Char :=
    match cs with
    | c :: rest => if c = '-' then (true, rest) else (false, cs)
    | [] => (false, [])
  let (ds, rest) := pDigits cs'
  match ds with
  | [] => none
  | d :: ds' =>
    if d = '0' ∧ ds' ≠ [] then none
    else
      match rest with
      | c :: _ => if c = '.' ∨ c = 'e' ∨ c = 'E' then none else
          let n : Nat := ds.foldl (fun a c => a * 10 + (c.toNat - 48)) 0
          some (if neg then -(n : Int) else (n : Int), rest)
      | [] =>
          let n : Nat := ds.foldl (fun a c => a * 10 + (c.toNat - 48)) 0
          some (if neg then -(n : Int) else (n : Int), [])

mutual

/-- Parse a JSON value. -/
def pValue : Nat → List Char → Option (Value × List Char)
  | 0, _ => none
  | fuel + 1, cs =>
    match skipWs cs with
    | 'n' :: 'u' :: 'l' :: 'l' :: rest => some (.null, rest)
    | 't' :: 'r' :: 'u' :: 'e' :: rest => some (.bool true, rest)
    | 'f' :: 'a' :: 'l' :: 's' :: 'e' :: rest => some (.bool false, rest)
    | '"' :: rest => (pStringBody rest).map (fun p => (.str p.1, p.2))
    | '[' :: rest => pArrayBody fuel rest
    | c :: rest =>
      if c = lbraceChar then pObjBody fuel rest
      else (pNumber (c :: rest)).map (fun p => (.num p.1, p.2))
    | [] => none

/-- Parse an array body (after `[`). -/
def pArrayBody (fuel : Nat) (cs : List Char) : Option (Value × List Char) :=
  match fuel with
  | 0 => none
  | fuel + 1 =>
    match skipWs cs with
    | ']' :: rest => some (.arr [], rest)
    | cs' => do
      let (v, rest) ← pValue fuel cs'
      let (vs, rest') ← pArrayRest fuel rest
      some (.arr (v :: vs), rest')

/-- Parse remaining array elements. -/
def pArrayRest (fuel : Nat) (cs : List Char) : Option (List Value × List Char) :=
  match fuel with
  | 0 => none
  | fuel + 1 =>
    match skipWs cs with
    | ']' :: rest => some ([], rest)
    | ',' :: rest => do
      let (v, rest') ← pValue fuel rest
      let (vs, rest'') ← pArrayRest fuel rest'
      some (v :: vs, rest'')
    | _ => none

/-- Parse an object body (after the opening brace), folding duplicate keys
with `Map::insert` semantics like `serde_json`. -/
def pObjBody (fuel : Nat) (cs : List Char) : Option (Value × List Char) :=
  match fuel with
  | 0 => none
  | fuel + 1 =>
    match skipWs cs with
    | c :: rest =>
      if c = rbraceChar then some (.obj [], rest)
      else do
        let (ps, rest') ← pMembers fuel (c :: rest)
        some (.obj (ps.foldl (fun (o : JsonObject) p => o.insert p.1 p.2) []), rest')
    | [] => none

/-- Parse one or more `key : value` members followed by the closing brace. -/
def pMembers (fuel : Nat) (cs : List Char) : Option (List (String × Value) × List Char) :=
  match fuel with
  | 0 => none
  | fuel + 1 =>
    match skipWs cs with
    | '"' :: rest => do
      let (k, rest') ← pStringBody rest
      match skipWs rest' with
      | ':' :: rest'' => do
        let (v, rest3) ← pValue fuel rest''
        match skipWs rest3 with
        | ',' :: rest4 => do
          let (ps, rest5) ← pMembers fuel rest4
          some ((k, v) :: ps, rest5)
        | c :: rest4 =>
          if c = rbraceChar then some ([(k, v)], rest4) else none
        | [] => none
      | _ => none
    | _ => none

end

/-- Parse a complete JSON document (model of `serde_json::from_str`). -/
def parseJson (s : String) : Option Value :=
  match pValue (s.length + 1) s.toList with
  | some (v, rest) => if skipWs rest = [] then some v else none
  | none => none

/-! ## Errors and hasher -/

/-- Model of the crate's `Error` enum (kinds listed in spec section 7).
`panicked` additionally models a Rust panic (`unwrap` / `unreachable!`),
which is not a catchable library error. -/
inductive Error where
  | invalidPath (msg : String)
  | dataTypeMismatch (msg : String)
  | deserializationError (msg : String)
  | indexOutOfBounds (i : Nat)
  | invalidHasher (msg : String)
  | missingKeyBindingJwt
  | unspecified (msg : String)
  | panicked (msg : String)
deriving DecidableEq, Repr

instance {ε α : Type} [DecidableEq ε] [DecidableEq α] : DecidableEq (Except ε α)
  | .ok a, .ok b =>
    if h : a = b then .isTrue (by rw [h]) else .isFalse (by simp [h])
  | .error e, .error f =>
    if h : e = f then .isTrue (by rw [h]) else .isFalse (by simp [h])
  | .ok _, .error _ => .isFalse (by simp)
  | .error _, .ok _ => .isFalse (by simp)

/-- `SHA_ALG_NAME` from `hasher.rs`. -/
def SHA_ALG_NAME : String := "sha-256"

/-- Model of the `Hasher` trait object: a digest function over bytes plus an
algorithm name (`hasher.rs`). -/
structure Hasher where
  digest : List Nat → List Nat
  algName : String

/-- Default `Hasher::encoded_digest`: unpadded base64url of the digest of
the disclosure string's UTF-8 bytes (`hasher.rs`). -/
def Hasher.encodedDigest (h : Hasher) (s : String) : String :=
  base64UrlEncode (h.digest (utf8Bytes s))

/-! ## Disclosure

The `Disclosure` type is not among the analysed sources (only `encoder.rs`,
`hasher.rs` and `sd_jwt.rs` are); it is modelled from the spec, sections
"Disclosure" (4.2) and "Disclosure text": an immutable
`(salt, optional claim name, claim value)` triple whose canonical textual
form — the exact bytes that are hashed — is the unpadded base64url encoding
of the JSON array `[salt, name, value]` (or `[salt, value]`), produced once
on construction and cached byte-for-byte on parse. -/

structure Disclosure where
  salt : String
  claim_name : Option String
  claim_value : Value
  /-- The canonical textual form; cached so that re-serialization and
  hashing use the exact original bytes. -/
  raw : String
deriving DecidableEq, Repr

/-- Modelled from the spec: `Disclosure::new` serializes
`[salt, name, value]` (or `[salt, value]`) with the host JSON serializer and
base64url-encodes the UTF-8 bytes, memoizing the result. -/
def Disclosure.new (salt : String) (name : Option String) (value : Value) : Disclosure :=
  let parts : List Value :=
    match name with
    | some n => [.str salt, .str n, value]
    | none => [.str salt, value]
  { salt := salt, claim_name := name, claim_value := value,
    raw := base64UrlEncode (utf8Bytes (jsonSer (.arr parts))) }

/-- Modelled from the spec: `Disclosure::parse` base64url-decodes the input,
requires a JSON array of length 2 (array entry) or 3 (object property), and
caches the original string. -/
def Disclosure.parse (s : String) : Option Disclosure := do
  let bytes ← base64UrlDecode s
  let txt ← utf8DecodeString bytes
  let v ← parseJson txt
  match v with
  | .arr [.str salt, .str name, value] =>
    some { salt := salt, claim_name := some name, claim_value := value, raw := s }
  | .arr [.str salt, value] =>
    some { salt := salt, claim_name := none, claim_value := value, raw := s }
  | _ => none

/-- `Disclosure::as_str` / `ToString`: the memoized canonical form. -/
def Disclosure.asStr (d : Disclosure) : String :=
  d.raw

/-! ## JWT envelopes and SD-JWT claims -/

/-- Modelled from the spec: the required key-binding descriptor carried by
the `cnf` claim is "opaque to this core"; it is modelled as an arbitrary
JSON value. -/
structure RequiredKeyBinding where
  payload : Value
deriving DecidableEq, Repr

/-- Splitting a character list at every occurrence of `sep`
(Rust `str::split` semantics: `n` separators yield `n + 1` segments). -/
def splitSep (sep : Char) : List Char → List (List Char)
  | [] => [[]]
  | c :: rest =>
    if c = sep then [] :: splitSep sep rest
    else
      match splitSep sep rest with
      | seg :: segs => (c :: seg) :: segs
      | [] => [[c]]

/-- Joining segments with `sep`; inverse of `splitSep`. -/
def joinSep (sep : Char) : List (List Char) → List Char
  | [] => []
  | [seg] => seg
  | seg :: segs => seg ++ sep :: joinSep sep segs

/-- Decode one dot-separated JWT segment into a JSON object. -/
def decodeObjSegment (s : String) : Option JsonObject := do
  let bytes ← base64UrlDecode s
  let txt ← utf8DecodeString bytes
  let v ← parseJson txt
  match v with
  | .obj o => some o
  | _ => none

/-- `SdJwtClaims` from `sd_jwt.rs`: the dedicated `_sd`, `_sd_alg` and `cnf`
fields plus the flattened remaining properties. -/
structure SdJwtClaims where
  sd : List String
  sd_alg : Option String
  cnf : Option RequiredKeyBinding
  properties : JsonObject
deriving DecidableEq, Repr

/-- Collect an `_sd` array as a string list (serde `Vec<String>` with
`default`): absent means empty, anything but an array of strings fails. -/
def sdListOfValue : Option Value → Option (List String)
  | none => some []
  | some (.arr xs) => optionMapM (fun v => match v with | .str s => some s | _ => none) xs
  | some _ => none

/-- Deserialize `SdJwtClaims` from a JSON object, mirroring the serde
derivation in `sd_jwt.rs` (`_sd` defaults to empty, `_sd_alg` optional,
`cnf` optional, everything else flattened into `properties`). -/
def claimsOfObject (o : JsonObject) : Option SdJwtClaims := do
  let sd ← sdListOfValue (o.get "_sd")
  let alg ← match o.get "_sd_alg" with
    | none => some none
    | some (.str s) => some (some s)
    | some _ => none
  let kb : Option RequiredKeyBinding := (o.get "cnf").map RequiredKeyBinding.mk
  some { sd := sd, sd_alg := alg, cnf := kb,
         properties := ((o.erase "_sd").erase "_sd_alg").erase "cnf" }

/-- Modelled from the spec: the issuer-signed JWT is an "opaque signed
envelope carrying a claims object"; parsing decodes the header and claims
and caches the original string so re-serialization is byte-for-byte
(`jwt.rs` is not among the analysed sources). -/
structure Jwt where
  header : JsonObject
  claims : SdJwtClaims
  raw : String
deriving DecidableEq, Repr

/-- Modelled from the spec: JWT parsing requires three dot-separated
segments with base64url JSON header and payload; the signature is opaque. -/
def Jwt.parse (s : String) : Option Jwt :=
  match splitSep '.' s.toList with
  | [h, p, _] => do
    let hObj ← decodeObjSegment (String.mk h)
    let pObj ← decodeObjSegment (String.mk p)
    let claims ← claimsOfObject pObj
    some { header := hObj, claims := claims, raw := s }
  | _ => none

/-- Modelled from the spec: the key-binding JWT is likewise an opaque signed
envelope; its claims are kept as a plain JSON object and the original string
is cached. -/
structure KeyBindingJwt where
  header : JsonObject
  claims : JsonObject
  raw : String
deriving DecidableEq, Repr

/-- Modelled from the spec: key-binding JWT parsing, shape-checking the
three dot-separated segments and caching the input. -/
def KeyBindingJwt.parse (s : String) : Option KeyBindingJwt :=
  match splitSep '.' s.toList with
  | [h, p, _] => do
    let hObj ← decodeObjSegment (String.mk h)
    let pObj ← decodeObjSegment (String.mk p)
    some { header := hObj, claims := pObj, raw := s }
  | _ => none

/-! ## The SD-JWT container (`sd_jwt.rs`) -/

/-- `SdJwt` from `sd_jwt.rs`. -/
structure SdJwt where
  jwt : Jwt
  disclosures : List Disclosure
  key_binding_jwt : Option KeyBindingJwt
deriving DecidableEq, Repr

/-- `SdJwt::claims`. -/
def SdJwt.claims (sd : SdJwt) : SdJwtClaims :=
  sd.jwt.claims

/-- `SdJwt::required_key_bind`. -/
def SdJwt.requiredKeyBind (sd : SdJwt) : Option RequiredKeyBinding :=
  sd.jwt.claims.cnf

/-- `SdJwt::presentation`: join the JWT, the disclosures and the optional
key-binding JWT with `~` (`sd_jwt.rs`, lines 111-123). -/
def SdJwt.presentation (sd : SdJwt) : String :=
  let disclosures := String.intercalate "~" (sd.disclosures.map Disclosure.asStr)
  let keyBindings := match sd.key_binding_jwt with
    | some kb => kb.raw
    | none => ""
  if disclosures = "" then
    sd.jwt.raw ++ "~" ++ keyBindings
  else
    sd.jwt.raw ++ "~" ++ disclosures ++ "~" ++ keyBindings

/-- `SdJwt::parse` (`sd_jwt.rs`, lines 126-153): split on `~`, require at
least two segments, parse the first as the issuer JWT, the middle segments
as disclosures, and the final segment (when non-empty) as the KB-JWT. -/
def SdJwt.parse (s : String) : Except Error SdJwt :=
  let segs := splitSep '~' s.toList
  if segs.length < 2 then
    .error (.deserializationError "SD-JWT format is invalid, less than 2 segments")
  else
    match segs with
    | [] => .error (.deserializationError "SD-JWT format is invalid, less than 2 segments")
    | first :: restSegs => do
      let jwt ← match Jwt.parse (String.mk first) with
        | some j => Except.ok j
        | none => Except.error (Error.deserializationError "invalid JWT")
      let disclosures ← exceptMapM (fun seg =>
        match Disclosure.parse (String.mk seg) with
        | some d => Except.ok d
        | none => Except.error (Error.deserializationError "invalid disclosure"))
        restSegs.dropLast
      let kbJwt ← match restSegs.getLast? with
        | none => Except.ok none
        | some l =>
          if l = [] then Except.ok none
          else match KeyBindingJwt.parse (String.mk l) with
            | some kb => Except.ok (some kb)
            | none => Except.error (Error.deserializationError "invalid KB-JWT")
      Except.ok { jwt := jwt, disclosures := disclosures, key_binding_jwt := kbJwt }

/-! ## Presentation builder (`sd_jwt.rs`, lines 192-450) -/

/-- The builder's `IndexMap<String, Disclosure>`: an insertion-ordered
association list keyed by encoded digest. -/
def DisclosureMap := List (String × Disclosure)

instance : DecidableEq DisclosureMap :=
  inferInstanceAs (DecidableEq (List (String × Disclosure)))

instance : Repr DisclosureMap := inferInstanceAs (Repr (List (String × Disclosure)))

instance : Append DisclosureMap := inferInstanceAs (Append (List (String × Disclosure)))

/-- `IndexMap::get`. -/
def DisclosureMap.lookup (m : DisclosureMap) (k : String) : Option Disclosure :=
  match m with
  | [] => none
  | (k', d) :: rest => if k' = k then some d else DisclosureMap.lookup rest k

/-- `IndexMap::insert`: replaces in place when the key exists, otherwise
appends (also the semantics of collecting an iterator into an `IndexMap`). -/
def DisclosureMap.insert (m : DisclosureMap) (k : String) (d : Disclosure) : DisclosureMap :=
  match m with
  | [] => [(k, d)]
  | (k', d') :: rest =>
    if k' = k then (k, d) :: rest else (k', d') :: DisclosureMap.insert rest k d

/-- `IndexMap::shift_remove` (the map part): drop the entry for `k`,
preserving the order of the remaining entries. -/
def DisclosureMap.erase (m : DisclosureMap) (k : String) : DisclosureMap :=
  match m with
  | [] => []
  | (k', d') :: rest =>
    if k' = k then rest else (k', d') :: DisclosureMap.erase rest k

/-- `IndexMap::values`. -/
def DisclosureMap.values (m : DisclosureMap) : List Disclosure :=
  m.map Prod.snd

/-- The `_sd` digests of an optional JSON value, as the source reads them:
`get(DIGESTS_KEY).and_then(as_array)` then `flat_map(as_str)` (non-string
entries are skipped). -/
def strsOfSd : Option Value → List String
  | some (.arr xs) => xs.filterMap (fun v => match v with | .str s => some s | _ => none)
  | _ => []

/-- `serde_json::Value::get` with a string key: `None` on non-objects. -/
def valueGetKey (v : Value) (k : String) : Option Value :=
  match v with
  | .obj o => JsonObject.get o k
  | _ => none

/-- `find_disclosure` (`sd_jwt.rs`, lines 381-408): search the object's
`_sd` array for a digest whose disclosure has the matching claim name, then
fall back to treating the object as a disclosable array entry
`{"...": <digest>}` (sole key, string value). -/
def findDisclosure (o : JsonObject) (key : String) (ds : DisclosureMap) : Option String :=
  let fromSd := (strsOfSd (o.get "_sd")).find? (fun dig =>
    match ds.lookup dig with
    | some d => d.claim_name = some key
    | none => false)
  match fromSd with
  | some dig => some dig
  | none =>
    match o.get "..." with
    | some (.str s) => if o.size = 1 then some s else none
    | _ => none

mutual

/-- `get_all_sub_disclosures` (`sd_jwt.rs`, lines 410-450): collect every
digest that appears syntactically inside `start` — entries of `_sd` arrays
and string values of `"..."` keys — and is present in the disclosures map.
The scan recurses through the JSON structure of `start` only; it does not
follow digests into the claim values of the disclosures they identify. -/
def getAllSubDisclosures : Value → DisclosureMap → List String
  | .obj o, ds =>
    (strsOfSd (JsonObject.get o "_sd")).filter (fun dig => (ds.lookup dig).isSome) ++
      getAllSubObjVals o ds
  | .arr xs, ds => getAllSubArr xs ds
  | _, _ => []

/-- Scan of all property values of an object. -/
def getAllSubObjVals : List (String × Value) → DisclosureMap → List String
  | [], _ => []
  | (_, v) :: rest, ds => getAllSubDisclosures v ds ++ getAllSubObjVals rest ds

/-- Scan of an array: an element with a string under the `"..."` key
contributes that digest when known (and is not recursed into); any other
element is scanned recursively. -/
def getAllSubArr : List Value → DisclosureMap → List String
  | [], _ => []
  | v :: rest, ds =>
    (match valueGetKey v "..." with
     | some (.str dig) => if (ds.lookup dig).isSome then [dig] else []
     | _ => getAllSubDisclosures v ds) ++ getAllSubArr rest ds

end

/-- Rust `str::parse::<usize>` on a path segment (digits only). -/
def parseUsize (s : String) : Option Nat :=
  s.toNat?

/-- The free `conceal` function (`sd_jwt.rs`, lines 309-379): traverse the
working object along the path, find the digest of the element to conceal,
and return it together with all digests found by scanning its disclosure's
claim value. -/
def concealFn (object : Value) (path : List String) (ds : DisclosureMap) :
    Except Error (List String) :=
  match path with
  | [] => .error (.invalidPath "element at path doesn't exist or is not disclosable")
  | elementKey :: rest =>
    match object with
    | .obj o =>
      if rest ≠ [] then
        let nextObject : Option Value :=
          match JsonObject.get o elementKey with
          | some v => some v
          | none =>
            (findDisclosure o elementKey ds).bind
              (fun dig => (ds.lookup dig).map Disclosure.claim_value)
        match nextObject with
        | some next => concealFn next rest ds
        | none =>
          .error (.invalidPath "the referenced element doesn't exist or is not concealable")
      else
        match findDisclosure o elementKey ds with
        | none =>
          .error (.invalidPath "the referenced element doesn't exist or is not concealable")
        | some dig =>
          match ds.lookup dig with
          | some d => .ok (getAllSubDisclosures d.claim_value ds ++ [dig])
          | none => .error (.panicked "no disclosure for digest")
    | .arr xs =>
      match (parseUsize elementKey).filter (fun idx => xs.length > idx) with
      | none => .error (.invalidPath "")
      | some index =>
        if rest ≠ [] then
          match xs.get? index with
          | some next => concealFn next rest ds
          | none =>
            .error (.invalidPath "the referenced element doesn't exist or is not concealable")
        else
          match xs.get? index with
          | none => .error (.panicked "index out of bounds")
          | some entry =>
            let dig? : Option String :=
              match entry with
              | .obj eo => findDisclosure eo "" ds
              | _ => none
            match dig? with
            | none =>
              .error (.invalidPath "the referenced element doesn't exist or is not concealable")
            | some dig =>
              match ds.lookup dig with
              | some d => .ok (getAllSubDisclosures d.claim_value ds ++ [dig])
              | none => .error (.panicked "no disclosure for digest")
    | _ => .error (.invalidPath "")

/-- `SdJwtPresentationBuilder` (`sd_jwt.rs`, lines 192-198). -/
structure SdJwtPresentationBuilder where
  sd_jwt : SdJwt
  disclosures : DisclosureMap
  removed_disclosures : List Disclosure
  object : Value
deriving DecidableEq, Repr

/-- `SdJwtPresentationBuilder::new` (`sd_jwt.rs`, lines 208-239): check the
hasher against `_sd_alg` (default `sha-256`), index the disclosures by
encoded digest, and move the claims (with the `_sd` array re-inserted under
its key) into a working JSON object. The claims fields moved out by
`mem::take` are left empty in the carried `SdJwt`. -/
def SdJwtPresentationBuilder.new (sd_jwt : SdJwt) (hasher : Hasher) :
    Except Error SdJwtPresentationBuilder :=
  let requiredHasher := sd_jwt.claims.sd_alg.getD SHA_ALG_NAME
  if requiredHasher ≠ hasher.algName then
    .error (.invalidHasher
      ("hasher \"" ++ hasher.algName ++ "\" was provided, but \"" ++ requiredHasher ++
        " is required\""))
  else
    let disclosures :=
      (sd_jwt.disclosures.map (fun d => (hasher.encodedDigest d.asStr, d))).foldl
        (fun (m : DisclosureMap) p => m.insert p.1 p.2) []
    let object :=
      Value.obj (sd_jwt.claims.properties.insert "_sd" (.arr (sd_jwt.claims.sd.map .str)))
    .ok
      { sd_jwt :=
          { sd_jwt with
            disclosures := []
            jwt :=
              { sd_jwt.jwt with
                claims := { sd_jwt.jwt.claims with sd := [], properties := [] } } }
        disclosures := disclosures
        removed_disclosures := []
        object := object }

/-- `SdJwt::into_presentation` (`sd_jwt.rs`, lines 159-161). -/
def SdJwt.intoPresentation (sd : SdJwt) (hasher : Hasher) :
    Except Error SdJwtPresentationBuilder :=
  SdJwtPresentationBuilder.new sd hasher

/-- Path segmentation used by the builder's `conceal`: strip every leading
`/`, then split on `/`. -/
def builderPathSegs (path : String) : List String :=
  (splitSep '/' (path.toList.dropWhile (· = '/'))).map String.mk

/-- `shift_remove` of each digest in order, collecting each removed
disclosure (in digest order) for the removed list. -/
def DisclosureMap.removeAll (m : DisclosureMap) (digs : List String) :
    DisclosureMap × List Disclosure :=
  match digs with
  | [] => (m, [])
  | dig :: rest =>
    match m.lookup dig with
    | some d =>
      let (m', rems) := DisclosureMap.removeAll (m.erase dig) rest
      (m', d :: rems)
    | none => DisclosureMap.removeAll m rest

/-- `SdJwtPresentationBuilder::conceal` (`sd_jwt.rs`, lines 246-261). -/
def SdJwtPresentationBuilder.conceal (b : SdJwtPresentationBuilder) (path : String) :
    Except Error SdJwtPresentationBuilder := do
  let digestsToRemove ← concealFn b.object (builderPathSegs path) b.disclosures
  let (newDisclosures, newlyRemoved) := b.disclosures.removeAll digestsToRemove
  .ok
    { b with
      disclosures := newDisclosures
      removed_disclosures := b.removed_disclosures ++ newlyRemoved }

/-- `SdJwtPresentationBuilder::attach_key_binding_jwt` (`sd_jwt.rs`,
lines 264-267). -/
def SdJwtPresentationBuilder.attachKeyBindingJwt (b : SdJwtPresentationBuilder)
    (kb : KeyBindingJwt) : SdJwtPresentationBuilder :=
  { b with sd_jwt := { b.sd_jwt with key_binding_jwt := some kb } }

/-- `SdJwtPresentationBuilder::finish` (`sd_jwt.rs`, lines 272-306): require
a key-binding JWT when `cnf` is present, then rebuild the `SdJwt`, moving
the `_sd` array out of the working object. The `unreachable!` arms of the
source are modelled by `Error.panicked`. -/
def SdJwtPresentationBuilder.finish (b : SdJwtPresentationBuilder) :
    Except Error (SdJwt × List Disclosure) :=
  if b.sd_jwt.requiredKeyBind.isSome ∧ b.sd_jwt.key_binding_jwt.isNone then
    .error .missingKeyBindingJwt
  else
    match b.object with
    | .obj o =>
      match (JsonObject.get o "_sd").getD (.arr []) with
      | .arr sdVals =>
        match optionMapM (fun v => match v with | .str s => some s | _ => none) sdVals with
        | some sdStrs =>
          .ok
            ({ b.sd_jwt with
               disclosures := b.disclosures.values
               jwt :=
                 { b.sd_jwt.jwt with
                   claims :=
                     { b.sd_jwt.jwt.claims with
                       sd := sdStrs
                       properties := JsonObject.erase o "_sd" } } },
             b.removed_disclosures)
        | none => .error (.panicked "non-string entry in `_sd`")
      | _ => .error (.panicked "`_sd` is not an array")
    | _ => .error (.panicked "builder object is not a JSON object")

/-! ## Encoder (`encoder.rs`) -/

/-- `DEFAULT_SALT_SIZE` (`encoder.rs`, line 18). -/
def DEFAULT_SALT_SIZE : Nat := 30

/-- The alphanumeric sampling alphabet of `rand::distributions::Alphanumeric`:
index 0-25 upper case, 26-51 lower case, 52-61 digits. -/
def alphanumericChar (i : Fin 62) : Char :=
  if i.val < 26 then Char.ofNat (65 + i.val)
  else if i.val < 52 then Char.ofNat (97 + (i.val - 26))
  else Char.ofNat (48 + (i.val - 52))

/-- `SdObjectEncoder::gen_rand` (`encoder.rs`, lines 268-271):
`Alphanumeric.sample_string(&mut rand::thread_rng(), len)` draws `len`
characters from the alphanumeric alphabet. The random source is modelled as
a stream of alphabet indices. -/
def genRand (src : Nat → Fin 62) (len : Nat) : String :=
  String.mk ((List.range len).map (fun i => alphanumericChar (src i)))

/-- `Utils::digest_b64_url_only_ascii` is not among the analysed sources;
modelled from the spec's "Digest encoding" (unpadded base64url over the
hasher's raw digest), which coincides with `Hasher::encoded_digest`. -/
def digestB64UrlOnlyAscii (h : Hasher) (s : String) : String :=
  h.encodedDigest s

/-- `SdObjectEncoder` (`encoder.rs`, lines 22-30). -/
structure SdObjectEncoder where
  object : JsonObject
  salt_length : Nat
  hasher : Hasher

/-- `TryFrom<Value> for SdObjectEncoder` (`encoder.rs`, lines 46-59). The
Rust implementation fixes the SHA-256 hasher; the hash function itself is
outside the embedding, so the hasher is a parameter. -/
def SdObjectEncoder.tryFromValue (hasher : Hasher) (value : Value) :
    Except Error SdObjectEncoder :=
  match value with
  | .obj o => .ok { object := o, salt_length := DEFAULT_SALT_SIZE, hasher := hasher }
  | _ => .error (.dataTypeMismatch "expected object")

/-- `SdObjectEncoder::with_custom_hasher` (`encoder.rs`, lines 63-69). -/
def SdObjectEncoder.withCustomHasher (objectStr : String) (hasher : Hasher) :
    Except Error SdObjectEncoder :=
  match parseJson objectStr with
  | some (.obj o) => .ok { object := o, salt_length := DEFAULT_SALT_SIZE, hasher := hasher }
  | _ => .error (.deserializationError "invalid JSON object")

/-- `add_digest_to_object` (`encoder.rs`, lines 237-250): push the digest
onto an existing `_sd` array, create the array when absent, and fail with
`DataTypeMismatch` when `_sd` exists but is not an array. -/
def addDigestToObject (o : JsonObject) (digest : String) : Except Error JsonObject :=
  match o.get "_sd" with
  | some (.arr xs) => .ok (o.insert "_sd" (.arr (xs ++ [.str digest])))
  | some _ => .error (.dataTypeMismatch "invalid object: existing `_sd` type is not an array")
  | none => .ok (o.insert "_sd" (.arr [.str digest]))

/-- The traversal of `get_target_property_and_its_parent` (`encoder.rs`,
lines 158-181) combined with the in-place mutation the callers perform on
the resolved parent: walk to the parent object of the final path segment
(every intermediate value must be a JSON object), apply `f` to the final
segment and the parent, and write the (possibly mutated) parent back. The
mutated parent is written back even when `f` reports an error, matching
mutation through `&mut`. -/
def modifyParent (o : JsonObject) (target : String) (rest : List String)
    (f : String → JsonObject → Except Error Disclosure × JsonObject) :
    Except Error Disclosure × JsonObject :=
  match rest with
  | [] => f target o
  | next :: rest' =>
    match o.get target with
    | none => (.error (.invalidPath (target ++ " does not exist")), o)
    | some (.obj inner) =>
      let (r, inner') := modifyParent inner next rest' f
      (r, o.insert target (.obj inner'))
    | some _ => (.error (.invalidPath (target ++ " is not an object")), o)

/-- `SdObjectEncoder::conceal` (`encoder.rs`, lines 83-110): resolve the
parent, remove the target property, build its disclosure, and append the
digest to the parent's `_sd` array. The digest insertion happens after the
removal; a failure of `add_digest_to_object` leaves the removal in place. -/
def SdObjectEncoder.conceal (e : SdObjectEncoder) (path : List String)
    (salt : Option String) (src : Nat → Fin 62) :
    Except Error Disclosure × SdObjectEncoder :=
  match path with
  | [] => (.error (.invalidPath "the provided path length is 0"), e)
  | target :: rest =>
    let saltStr := salt.getD (genRand src e.salt_length)
    let (r, o') := modifyParent e.object target rest (fun tk parent =>
      match parent.get tk with
      | none => (.error (.invalidPath (tk ++ " does not exist")), parent)
      | some v =>
        let parent' := parent.erase tk
        let d := Disclosure.new saltStr (some tk) v
        let hash := digestB64UrlOnlyAscii e.hasher d.asStr
        match addDigestToObject parent' hash with
        | .ok parent'' => (.ok d, parent'')
        | .error err => (.error err, parent'))
    (r, { e with object := o' })

/-- `SdObjectEncoder::conceal_array_entry` (`encoder.rs`, lines 122-156):
resolve the parent, require the target to be an array, and replace the
indexed element in place with `{"...": <digest>}`; an out-of-bounds index
fails with `IndexOutofBounds`. -/
def SdObjectEncoder.concealArrayEntry (e : SdObjectEncoder) (path : List String)
    (elementIndex : Nat) (salt : Option String) (src : Nat → Fin 62) :
    Except Error Disclosure × SdObjectEncoder :=
  match path with
  | [] => (.error (.invalidPath "the provided path length is 0"), e)
  | target :: rest =>
    let saltStr := salt.getD (genRand src e.salt_length)
    let (r, o') := modifyParent e.object target rest (fun tk parent =>
      match parent.get tk with
      | none => (.error (.invalidPath (tk ++ " does not exist")), parent)
      | some (.arr xs) =>
        match xs.get? elementIndex with
        | some elementValue =>
          let d := Disclosure.new saltStr none elementValue
          let hash := digestB64UrlOnlyAscii e.hasher d.asStr
          let tripledot := Value.obj [("...", .str hash)]
          (.ok d, parent.insert tk (.arr (xs.set elementIndex tripledot)))
        | none => (.error (.indexOutOfBounds elementIndex), parent)
      | some _ => (.error (.invalidPath (tk ++ " is not an array")), parent))
    (r, { e with object := o' })

/-- The randomness drawn by `random_digest` beyond the salt (`encoder.rs`,
lines 252-266): the decoy value length from `[20, 100]`, the decoy claim
name length from `[4, 10]`, and the character streams. -/
structure DecoyRand where
  saltSrc : Nat → Fin 62
  valueLen : Nat
  nameLen : Nat
  valueSrc : Nat → Fin 62
  nameSrc : Nat → Fin 62

/-- `random_digest` (`encoder.rs`, lines 252-266). -/
def randomDigest (hasher : Hasher) (saltLen : Nat) (arrayEntry : Bool) (r : DecoyRand) :
    Disclosure × String :=
  let salt := genRand r.saltSrc saltLen
  let decoyClaimName := if arrayEntry then none else some (genRand r.nameSrc r.nameLen)
  let decoyValue := genRand r.valueSrc r.valueLen
  let d := Disclosure.new salt decoyClaimName (.str decoyValue)
  (d, digestB64UrlOnlyAscii hasher d.asStr)

/-- `add_decoy` (`encoder.rs`, lines 206-234). Note the source passes
`array_entry = true` at every call site, so decoy disclosures never carry a
claim name. -/
def SdObjectEncoder.addDecoy (e : SdObjectEncoder) (path : List String) (r : DecoyRand) :
    Except Error Disclosure × SdObjectEncoder :=
  match path with
  | [] =>
    let (d, hash) := randomDigest e.hasher e.salt_length true r
    match addDigestToObject e.object hash with
    | .ok o' => (.ok d, { e with object := o' })
    | .error err => (.error err, e)
  | target :: rest =>
    let (res, o') := modifyParent e.object target rest (fun tk parent =>
      match parent.get tk with
      | none => (.error (.invalidPath (tk ++ " does not exist")), parent)
      | some (.obj inner) =>
        let (d, hash) := randomDigest e.hasher e.salt_length true r
        match addDigestToObject inner hash with
        | .ok inner' => (.ok d, parent.insert tk (.obj inner'))
        | .error err => (.error err, parent)
      | some (.arr xs) =>
        let (d, hash) := randomDigest e.hasher e.salt_length true r
        let tripledot := Value.obj [("...", .str hash)]
        (.ok d, parent.insert tk (.arr (xs ++ [tripledot])))
      | some _ =>
        (.error (.invalidPath (tk ++ " is neither an object nor an array")), parent))
    (res, { e with object := o' })

/-- `SdObjectEncoder::salt_length` (`encoder.rs`, lines 283-286). -/
def SdObjectEncoder.saltLength (e : SdObjectEncoder) : Nat :=
  e.salt_length

/-- `SdObjectEncoder::set_salt_length` (`encoder.rs`, lines 288-296): a new
value of 0 is silently ignored. -/
def SdObjectEncoder.setSaltLength (e : SdObjectEncoder) (saltLength : Nat) : SdObjectEncoder :=
  if saltLength > 0 then { e with salt_length := saltLength } else e

/-! ## Navigation characterizations (derived descriptions of the encoder's
path traversal, used to state and prove properties of `modifyParent`). -/

/-- The parent object and final key reached by
`get_target_property_and_its_parent`: walk `rest` requiring every
intermediate value to be a JSON object. -/
def parentAt (o : JsonObject) (target : String) (rest : List String) :
    Option (String × JsonObject) :=
  match rest with
  | [] => some (target, o)
  | next :: rest' =>
    match o.get target with
    | some (.obj inner) => parentAt inner next rest'
    | _ => none

/-- Write a new parent object back at the position `parentAt` resolves. -/
def setParentAt (o : JsonObject) (target : String) (rest : List String)
    (p : JsonObject) : JsonObject :=
  match rest with
  | [] => p
  | next :: rest' =>
    match o.get target with
    | some (.obj inner) => o.insert target (.obj (setParentAt inner next rest' p))
    | _ => o

/-- The value reached by walking a non-empty path through nested JSON
objects only. -/
def objValueAt (o : JsonObject) (path : List String) : Option Value :=
  match path with
  | [] => none
  | [k] => o.get k
  | k :: rest =>
    match o.get k with
    | some (.obj inner) => objValueAt inner rest
    | _ => none

/-- The alphanumeric alphabet `[A-Za-z0-9]` as a character predicate. -/
def isAlphanumChar (c : Char) : Bool :=
  decide ((65 ≤ c.toNat ∧ c.toNat ≤ 90) ∨ (97 ≤ c.toNat ∧ c.toNat ≤ 122) ∨
    (48 ≤ c.toNat ∧ c.toNat ≤ 57))

/-! ## Spec-side definitions for claim C2

These two definitions follow the spec's words ("Collect the target digest
AND every digest transitively reachable from its disclosure's
`claim_value`: recursively scan every `_sd` array and every
`{"...": <digest>}` inside that value, and continue into the disclosures
those digests point to"), for comparison with the source-derived
`get_all_sub_disclosures`. -/

mutual

/-- Spec-worded syntactic scan: every entry of every `_sd` array and every
string under a `"..."` key, anywhere inside the value. -/
def specScanDigests : Value → List String
  | .obj o =>
    (match JsonObject.get o "_sd" with
     | some (.arr xs) => xs.filterMap (fun v => match v with | .str s => some s | _ => none)
     | _ => []) ++
    (match JsonObject.get o "..." with
     | some (.str dig) => [dig]
     | _ => []) ++ specScanObjVals o
  | .arr xs => specScanList xs
  | _ => []

def specScanObjVals : List (String × Value) → List String
  | [] => []
  | (_, v) :: rest => specScanDigests v ++ specScanObjVals rest

def specScanList : List Value → List String
  | [] => []
  | v :: rest => specScanDigests v ++ specScanList rest

end

/-- Spec-worded transitive reachability of a digest from a claim value:
either the digest appears in the syntactic scan of the value, or it is
reachable from the claim value of a disclosure whose digest is. -/
inductive SpecReachableDigest (ds : DisclosureMap) : Value → String → Prop where
  | scan (v : Value) (dig : String) :
      dig ∈ specScanDigests v → SpecReachableDigest ds v dig
  | through (v : Value) (dig dig' : String) (d : Disclosure) :
      SpecReachableDigest ds v dig → ds.lookup dig = some d →
      SpecReachableDigest ds d.claim_value dig' → SpecReachableDigest ds v dig'

/-! ## Concrete fixtures for witnesses and counterexamples -/

/-- A concrete random source (constant index 0, i.e. the character `A`). -/
def fixedSrc : Nat → Fin 62 := fun _ => ⟨0, by decide⟩

/-- A concrete hasher: identity digest over the bytes, named `sha-256`.
Only the trait surface matters to the analysed code. -/
def idHasher : Hasher := { digest := fun bs => bs, algName := "sha-256" }

/-- A hasher with a different algorithm name. -/
def otherHasher : Hasher := { digest := fun bs => bs, algName := "sha-384" }

/-- Empty claims. -/
def emptyClaims : SdJwtClaims :=
  { sd := [], sd_alg := none, cnf := none, properties := [] }

/-- The JSON object of the source's encoder tests:
`{"id": "did:value", "claim1": {"abc": true}, "claim2": ["arr-value1", "arr-value2"]}`. -/
def encTestObj : JsonObject :=
  [("id", .str "did:value"),
   ("claim1", .obj [("abc", .bool true)]),
   ("claim2", .arr [.str "arr-value1", .str "arr-value2"])]

/-- Encoder over the test object with the default salt length. -/
def encTest : SdObjectEncoder :=
  { object := encTestObj, salt_length := DEFAULT_SALT_SIZE, hasher := idHasher }

/-- Encoder whose object carries a non-array `_sd` member:
`{"a": 1, "_sd": 5}`. -/
def encBadSd : SdObjectEncoder :=
  { object := [("a", .num 1), ("_sd", .num 5)], salt_length := DEFAULT_SALT_SIZE,
    hasher := idHasher }

/-- C2 fixture: innermost disclosure (`c`, value 42). -/
def c2DiscC : Disclosure := Disclosure.new "s3" (some "c") (.num 42)

/-- Digest of `c2DiscC` under `idHasher`. -/
def c2DigC : String := idHasher.encodedDigest c2DiscC.asStr

/-- C2 fixture: middle disclosure (`b`), whose claim value hides `c2DigC`
behind an `_sd` array. -/
def c2DiscB : Disclosure :=
  Disclosure.new "s2" (some "b") (.obj [("_sd", .arr [.str c2DigC])])

/-- Digest of `c2DiscB` under `idHasher`. -/
def c2DigB : String := idHasher.encodedDigest c2DiscB.asStr

/-- C2 fixture: outer disclosure (`a`), whose claim value hides `c2DigB`. -/
def c2DiscA : Disclosure :=
  Disclosure.new "s1" (some "a") (.obj [("_sd", .arr [.str c2DigB])])

/-- Digest of `c2DiscA` under `idHasher`. -/
def c2DigA : String := idHasher.encodedDigest c2DiscA.asStr

/-- C2 fixture: an SD-JWT whose top-level `_sd` commits to `a`, carrying
all three disclosures. -/
def c2SdJwt : SdJwt :=
  { jwt :=
      { header := []
        claims := { sd := [c2DigA], sd_alg := none, cnf := none, properties := [] }
        raw := "e30.e30.x" }
    disclosures := [c2DiscA, c2DiscB, c2DiscC]
    key_binding_jwt := none }

/-- The builder state produced by `SdJwtPresentationBuilder.new c2SdJwt idHasher`. -/
def c2Builder : SdJwtPresentationBuilder :=
  { sd_jwt := { jwt := { header := [], claims := emptyClaims, raw := "e30.e30.x" },
                disclosures := [], key_binding_jwt := none }
    disclosures := [(c2DigA, c2DiscA), (c2DigB, c2DiscB), (c2DigC, c2DiscC)]
    removed_disclosures := []
    object := .obj [("_sd", .arr [.str c2DigA])] }

/-- The builder state after `c2Builder.conceal "a"`. -/
def c2After : SdJwtPresentationBuilder :=
  { c2Builder with
    disclosures := [(c2DigC, c2DiscC)]
    removed_disclosures := [c2DiscB, c2DiscA] }

/-- The SD-JWT returned by `c2After.finish`. -/
def c2Final : SdJwt :=
  { jwt :=
      { header := []
        claims := { sd := [c2DigA], sd_alg := none, cnf := none, properties := [] }
        raw := "e30.e30.x" }
    disclosures := [c2DiscC]
    key_binding_jwt := none }

/-- C9 fixture: an SD-JWT whose flattened properties already contain an
`_sd` key (reachable in Rust through `claims_mut`). -/
def c9Sd : SdJwt :=
  { jwt :=
      { header := []
        claims := { sd := [], sd_alg := none, cnf := none,
                    properties := [("_sd", .num 5)] }
        raw := "e30.e30.x" }
    disclosures := []
    key_binding_jwt := none }

/-- The SD-JWT produced by running `c9Sd` through the builder identity
pipeline: the `_sd` property has been destroyed. -/
def c9Final : SdJwt :=
  { jwt :=
      { header := []
        claims := { sd := [], sd_alg := none, cnf := none, properties := [] }
        raw := "e30.e30.x" }
    disclosures := []
    key_binding_jwt := none }

/-- C9 witness fixture: a plain SD-JWT with one disclosure. -/
def c9wDisc : Disclosure := Disclosure.new "ws" (some "w") (.bool true)

/-- C9 witness fixture SD-JWT. -/
def c9wSd : SdJwt :=
  { jwt :=
      { header := []
        claims := { sd := [idHasher.encodedDigest c9wDisc.asStr], sd_alg := none,
                    cnf := none, properties := [("iss", .str "me")] }
        raw := "e30.e30.x" }
    disclosures := [c9wDisc]
    key_binding_jwt := none }

/-- The builder state produced by `c9wSd.intoPresentation idHasher`. -/
def c9wBuilder : SdJwtPresentationBuilder :=
  { sd_jwt := { jwt := { header := [], claims := emptyClaims, raw := "e30.e30.x" }
                disclosures := [], key_binding_jwt := none }
    disclosures := [(idHasher.encodedDigest c9wDisc.asStr, c9wDisc)]
    removed_disclosures := []
    object := .obj [("iss", .str "me"),
                    ("_sd", .arr [.str (idHasher.encodedDigest c9wDisc.asStr)])] }

/-- C6/C7 fixture: an SD-JWT that requires key binding (`cnf` present). -/
def c7Sd : SdJwt :=
  { jwt :=
      { header := []
        claims := { sd := [], sd_alg := none, cnf := some ⟨.null⟩, properties := [] }
        raw := "e30.e30.x" }
    disclosures := []
    key_binding_jwt := none }

/-- The builder state produced by `SdJwtPresentationBuilder.new c7Sd idHasher`. -/
def c7Builder : SdJwtPresentationBuilder :=
  { sd_jwt := { jwt := { header := [], claims := { emptyClaims with cnf := some ⟨.null⟩ },
                         raw := "e30.e30.x" },
                disclosures := [], key_binding_jwt := none }
    disclosures := []
    removed_disclosures := []
    object := .obj [("_sd", .arr [])] }

/-- C1 witness fixture: the two-segment SD-JWT string `e30.e30.x~`
(`e30` is the base64url encoding of the empty JSON object). -/
def c1Str : String := "e30.e30.x~"

/-- The parse of `c1Str`. -/
def c1Val : SdJwt :=
  { jwt := { header := [], claims := emptyClaims, raw := "e30.e30.x" }
    disclosures := []
    key_binding_jwt := none }

/-- Well-formedness of a builder's working object: a JSON object whose
`_sd` member, when present, is an array of strings. Every builder state
reachable through `new`, `conceal` and `attach_key_binding_jwt` satisfies
this (see the preservation lemmas below). -/
def builderWF (b : SdJwtPresentationBuilder) : Bool :=
  match b.object with
  | .obj o =>
    match JsonObject.get o "_sd" with
    | none => true
    | some (.arr xs) => xs.all (fun v => match v with | .str _ => true | _ => false)
    | some _ => false
  | _ => false

/-! # Helper lemmas -/

theorem parentAt_modifyParent (f : String → JsonObject → Except Error Disclosure × JsonObject) :
    ∀ (rest : List String) (target : String) (o : JsonObject) (tk : String)
      (parent : JsonObject), parentAt o target rest = some (tk, parent) →
      modifyParent o target rest f = ((f tk parent).1, setParentAt o target rest (f tk parent).2)
  | [], target, o, tk, parent => by
    intro h
    simp [parentAt] at h
    obtain ⟨h1, h2⟩ := h
    subst h1; subst h2
    simp [modifyParent, setParentAt]
  | next :: rest', target, o, tk, parent => by
    intro h
    simp only [parentAt] at h
    match hg : o.get target with
    | some (.obj inner) =>
      rw [hg] at h
      have ih := parentAt_modifyParent f rest' next inner tk parent h
      simp only [modifyParent, setParentAt, hg, ih]
    | none => rw [hg] at h; exact absurd h (by simp)
    | some .null => rw [hg] at h; exact absurd h (by simp)
    | some (.bool b) => rw [hg] at h; exact absurd h (by simp)
    | some (.num n) => rw [hg] at h; exact absurd h (by simp)
    | some (.str s) => rw [hg] at h; exact absurd h (by simp)
    | some (.arr xs) => rw [hg] at h; exact absurd h (by simp)

theorem modifyParent_nav_none (f : String → JsonObject → Except Error Disclosure × JsonObject) :
    ∀ (rest : List String) (target : String) (o : JsonObject),
      parentAt o target rest = none →
      ∃ msg, modifyParent o target rest f = (.error (.invalidPath msg), o)
  | [], target, o => by
    intro h
    simp [parentAt] at h
  | next :: rest', target, o => by
    intro h
    simp only [parentAt] at h
    match hg : o.get target with
    | none => exact ⟨target ++ " does not exist", by simp [modifyParent, hg]⟩
    | some (.obj inner) =>
      rw [hg] at h
      obtain ⟨msg, hm⟩ := modifyParent_nav_none f rest' next inner h
      refine ⟨msg, ?_⟩
      simp only [modifyParent, hg, hm]
      rw [JsonObject.insert_self_of_get o target (.obj inner) hg]
    | some .null => exact ⟨target ++ " is not an object", by simp [modifyParent, hg]⟩
    | some (.bool b) => exact ⟨target ++ " is not an object", by simp [modifyParent, hg]⟩
    | some (.num n) => exact ⟨target ++ " is not an object", by simp [modifyParent, hg]⟩
    | some (.str s) => exact ⟨target ++ " is not an object", by simp [modifyParent, hg]⟩
    | some (.arr xs) => exact ⟨target ++ " is not an object", by simp [modifyParent, hg]⟩

theorem setParentAt_self :
    ∀ (rest : List String) (target : String) (o : JsonObject) (tk : String)
      (parent : JsonObject), parentAt o target rest = some (tk, parent) →
      setParentAt o target rest parent = o
  | [], target, o, tk, parent => by
    intro h
    simp [parentAt] at h
    obtain ⟨h1, h2⟩ := h
    subst h2
    simp [setParentAt]
  | next :: rest', target, o, tk, parent => by
    intro h
    simp only [parentAt] at h
    match hg : o.get target with
    | some (.obj inner) =>
      rw [hg] at h
      have ih := setParentAt_self rest' next inner tk parent h
      simp only [setParentAt, hg, ih]
      exact JsonObject.insert_self_of_get o target (.obj inner) hg
    | none => rw [hg] at h; exact absurd h (by simp)
    | some .null => rw [hg] at h; exact absurd h (by simp)
    | some (.bool b) => rw [hg] at h; exact absurd h (by simp)
    | some (.num n) => rw [hg] at h; exact absurd h (by simp)
    | some (.str s) => rw [hg] at h; exact absurd h (by simp)
    | some (.arr xs) => rw [hg] at h; exact absurd h (by simp)

theorem objValueAt_eq_parentAt :
    ∀ (rest : List String) (target : String) (o : JsonObject),
      objValueAt o (target :: rest) =
        (match parentAt o target rest with
         | some (tk, p) => p.get tk
         | none => none)
  | [], target, o => by simp [objValueAt, parentAt]
  | next :: rest', target, o => by
    match hg : o.get target with
    | some (.obj inner) =>
      simp only [objValueAt, parentAt, hg]
      exact objValueAt_eq_parentAt rest' next inner
    | none => simp [objValueAt, parentAt, hg]
    | some .null => simp [objValueAt, parentAt, hg]
    | some (.bool b) => simp [objValueAt, parentAt, hg]
    | some (.num n) => simp [objValueAt, parentAt, hg]
    | some (.str s) => simp [objValueAt, parentAt, hg]
    | some (.arr xs) => simp [objValueAt, parentAt, hg]

theorem objValueAt_setParentAt :
    ∀ (rest : List String) (target : String) (o : JsonObject) (tk : String)
      (parent : JsonObject) (p : JsonObject),
      parentAt o target rest = some (tk, parent) →
      objValueAt (setParentAt o target rest p) (target :: rest) = p.get tk
  | [], target, o, tk, parent, p => by
    intro h
    simp [parentAt] at h
    obtain ⟨h1, _⟩ := h
    subst h1
    simp [setParentAt, objValueAt]
  | next :: rest', target, o, tk, parent, p => by
    intro h
    simp only [parentAt] at h
    match hg : o.get target with
    | some (.obj inner) =>
      rw [hg] at h
      have ih := objValueAt_setParentAt rest' next inner tk parent p h
      simp only [setParentAt, hg]
      simp only [objValueAt, JsonObject.get_insert_self]
      exact ih
    | none => rw [hg] at h; exact absurd h (by simp)
    | some .null => rw [hg] at h; exact absurd h (by simp)
    | some (.bool b) => rw [hg] at h; exact absurd h (by simp)
    | some (.num n) => rw [hg] at h; exact absurd h (by simp)
    | some (.str s) => rw [hg] at h; exact absurd h (by simp)
    | some (.arr xs) => rw [hg] at h; exact absurd h (by simp)

theorem modifyParent_ok (f : String → JsonObject → Except Error Disclosure × JsonObject)
    (rest : List String) (target : String) (o o' : JsonObject) (d : Disclosure)
    (h : modifyParent o target rest f = (.ok d, o')) :
    ∃ tk parent, parentAt o target rest = some (tk, parent) ∧
      (f tk parent).1 = .ok d ∧ o' = setParentAt o target rest (f tk parent).2 := by
  match hp : parentAt o target rest with
  | some (tk, parent) =>
    rw [parentAt_modifyParent f rest target o tk parent hp] at h
    refine ⟨tk, parent, rfl, ?_, ?_⟩
    · exact congrArg Prod.fst h
    · exact (congrArg Prod.snd h).symm
  | none =>
    exact absurd h (by
      obtain ⟨msg, hm⟩ := modifyParent_nav_none f rest target o hp
      rw [hm]
      simp)

theorem mapM_str_of_all :
    ∀ xs : List Value,
      (xs.all (fun v => match v with | .str _ => true | _ => false)) = true →
      ∃ ss, optionMapM (fun v => match v with | .str s => some s | _ => none) xs = some ss
  | [] => fun _ => ⟨[], rfl⟩
  | v :: xs => by
    intro h
    simp only [List.all_cons, Bool.and_eq_true] at h
    obtain ⟨hv, hxs⟩ := h
    obtain ⟨ss, hss⟩ := mapM_str_of_all xs hxs
    match v with
    | .str s => exact ⟨s :: ss, by simp [optionMapM, hss]⟩
    | .null => simp at hv
    | .bool b => simp at hv
    | .num n => simp at hv
    | .arr ys => simp at hv
    | .obj ys => simp at hv

/-! # Claim theorems -/

/-- C10: `set_salt_length(n)` with `n > 0` makes `salt_length()` return
`n`, while `n = 0` is a silent no-op; the encoder's JSON object and hasher
are unchanged in both cases. -/
theorem c10_setSaltLength_spec (e : SdObjectEncoder) (n : Nat) :
    (e.setSaltLength n).saltLength = (if 0 < n then n else e.saltLength) ∧
    (e.setSaltLength n).object = e.object ∧
    (e.setSaltLength n).hasher = e.hasher := by
  unfold SdObjectEncoder.setSaltLength SdObjectEncoder.saltLength
  by_cases h : 0 < n <;> simp [h]


theorem exceptBind_ok {ε α β : Type} (a : α) (f : α → Except ε β) :
    (Except.ok a >>= f : Except ε β) = f a := rfl

theorem exceptBind_err {ε α β : Type} (e : ε) (f : α → Except ε β) :
    (Except.error e >>= f : Except ε β) = .error e := rfl

/-- C6: constructing a presentation builder fails with `InvalidHasher` if
and only if the hasher's `alg_name` differs from the claims' `_sd_alg`
value, an absent `_sd_alg` being treated as `sha-256`; on agreement it
succeeds. -/
theorem c6_invalidHasher_iff (sd : SdJwt) (h : Hasher) :
    ((∃ m, sd.intoPresentation h = .error (.invalidHasher m)) ↔
      h.algName ≠ sd.claims.sd_alg.getD SHA_ALG_NAME) ∧
    (h.algName = sd.claims.sd_alg.getD SHA_ALG_NAME →
      ∃ b, sd.intoPresentation h = .ok b) := by
  unfold SdJwt.intoPresentation SdJwtPresentationBuilder.new
  by_cases hh : sd.claims.sd_alg.getD SHA_ALG_NAME = h.algName
  · constructor
    · constructor
      · rintro ⟨m, hm⟩
        rw [if_neg (by simpa using hh)] at hm
        simp at hm
      · intro hne
        exact absurd hh.symm hne
    · intro _
      exact ⟨_, by rw [if_neg (by simpa using hh)]⟩
  · constructor
    · constructor
      · intro _
        exact fun he => hh he.symm
      · intro _
        exact ⟨_, by rw [if_pos (by simpa using hh)]⟩
    · intro he
      exact absurd he.symm hh

theorem builderWF_elim (b : SdJwtPresentationBuilder) (hwf : builderWF b = true) :
    ∃ o, b.object = .obj o ∧
      (JsonObject.get o "_sd" = none ∨
        ∃ xs, JsonObject.get o "_sd" = some (.arr xs) ∧
          (xs.all (fun v => match v with | .str _ => true | _ => false)) = true) := by
  unfold builderWF at hwf
  split at hwf
  · next o hob =>
    refine ⟨o, hob, ?_⟩
    split at hwf
    · next hsd => exact Or.inl hsd
    · next xs hsd => exact Or.inr ⟨xs, hsd, hwf⟩
    · simp at hwf
  · simp at hwf

theorem builderWF_new (sd : SdJwt) (h : Hasher) (b : SdJwtPresentationBuilder)
    (hn : SdJwtPresentationBuilder.new sd h = .ok b) : builderWF b = true := by
  unfold SdJwtPresentationBuilder.new at hn
  dsimp only at hn
  split at hn
  · simp at hn
  · simp only [Except.ok.injEq] at hn
    subst hn
    simp only [builderWF, JsonObject.get_insert_self]
    induction sd.claims.sd with
    | nil => rfl
    | cons s ss ih => simp [ih]

theorem builderWF_conceal (b b' : SdJwtPresentationBuilder) (p : String)
    (hc : b.conceal p = .ok b') (hwf : builderWF b = true) : builderWF b' = true := by
  unfold SdJwtPresentationBuilder.conceal at hc
  match hcf : concealFn b.object (builderPathSegs p) b.disclosures with
  | .ok digs =>
    rw [hcf] at hc
    rw [exceptBind_ok] at hc
    simp only [Except.ok.injEq] at hc
    subst hc
    exact hwf
  | .error e =>
    rw [hcf] at hc
    rw [exceptBind_err] at hc
    simp at hc

theorem builderWF_attach (b : SdJwtPresentationBuilder) (kb : KeyBindingJwt) :
    builderWF (b.attachKeyBindingJwt kb) = builderWF b :=
  rfl

/-- C7: on every well-formed builder state (an invariant established by
`new` and preserved by `conceal` and `attach_key_binding_jwt`, per the
lemmas above), `finish()` fails with `MissingKeyBindingJwt` exactly when
the claims carry a `cnf` member and no key-binding JWT is attached; in
every other case it succeeds. -/
theorem c7_finish_missingKb_iff (b : SdJwtPresentationBuilder)
    (hwf : builderWF b = true) :
    (b.finish = .error .missingKeyBindingJwt ↔
      (b.sd_jwt.claims.cnf.isSome ∧ b.sd_jwt.key_binding_jwt.isNone)) ∧
    (¬(b.sd_jwt.claims.cnf.isSome ∧ b.sd_jwt.key_binding_jwt.isNone) →
      ∃ r, b.finish = .ok r) := by
  obtain ⟨o, hob, hsd⟩ := builderWF_elim b hwf
  have hok : ¬(b.sd_jwt.claims.cnf.isSome ∧ b.sd_jwt.key_binding_jwt.isNone) →
      ∃ r, b.finish = .ok r := by
    intro hn
    unfold SdJwtPresentationBuilder.finish
    rw [if_neg (by simpa [SdJwt.requiredKeyBind, SdJwt.claims] using hn)]
    rw [hob]
    dsimp only
    rcases hsd with hnone | ⟨xs, hgot, hall⟩
    · rw [hnone]
      exact ⟨_, rfl⟩
    · rw [hgot]
      obtain ⟨ss, hss⟩ := mapM_str_of_all xs hall
      simp only [Option.getD_some]
      rw [hss]
      exact ⟨_, rfl⟩
  constructor
  · constructor
    · intro he
      by_contra hn
      obtain ⟨r, hr⟩ := hok hn
      rw [hr] at he
      exact absurd he (by simp)
    · intro hcc
      unfold SdJwtPresentationBuilder.finish
      rw [if_pos (by simpa [SdJwt.requiredKeyBind, SdJwt.claims] using hcc)]
  · exact hok


/-- C6 witness: a mismatching hasher yields `InvalidHasher` on a concrete
SD-JWT. -/
theorem c6_invalidHasher_iff_witness :
    ∃ m, c7Sd.intoPresentation otherHasher = .error (.invalidHasher m) :=
  (c6_invalidHasher_iff c7Sd otherHasher).1.mpr (by decide)

/-- C7 witness: a concrete builder state (the one `new` produces on
`c7Sd`) with `cnf` present and no KB-JWT fails with
`MissingKeyBindingJwt`. -/
theorem c7_finish_missingKb_iff_witness :
    builderWF c7Builder = true ∧ c7Builder.finish = .error .missingKeyBindingJwt :=
  ⟨by decide, (c7_finish_missingKb_iff c7Builder (by decide)).1.mpr (by decide)⟩

/-- C5: on a path resolving to an array of length `L`,
`conceal_array_entry` with `i < L` replaces the element at `i` in place
with `{"...": <digest>}` (so the length is still `L`), and with `i ≥ L`
(in particular `i = L`) fails with `IndexOutOfBounds(i)`, carrying the
index, leaving the encoder unchanged. -/
theorem c5_concealArrayEntry_spec (e : SdObjectEncoder) (target : String)
    (rest : List String) (i : Nat) (salt : Option String) (src : Nat → Fin 62)
    (xs : List Value) (hv : objValueAt e.object (target :: rest) = some (.arr xs)) :
    (i < xs.length →
      ∃ d e', e.concealArrayEntry (target :: rest) i salt src = (.ok d, e') ∧
        ∃ ys, objValueAt e'.object (target :: rest) = some (.arr ys) ∧
          ys.length = xs.length ∧
          ys = xs.set i (.obj [("...", .str (digestB64UrlOnlyAscii e.hasher d.asStr))])) ∧
    (xs.length ≤ i →
      e.concealArrayEntry (target :: rest) i salt src =
        (.error (.indexOutOfBounds i), e)) := by
  rw [objValueAt_eq_parentAt] at hv
  match hp : parentAt e.object target rest with
  | none => rw [hp] at hv; simp at hv
  | some (tk, parent) =>
    rw [hp] at hv
    dsimp only at hv
    unfold SdObjectEncoder.concealArrayEntry
    dsimp only
    rw [parentAt_modifyParent _ rest target e.object tk parent hp]
    dsimp only
    rw [hv]
    dsimp only
    constructor
    · intro hlt
      match hg : xs.get? i with
      | none =>
        rw [List.get?_eq_none] at hg
        omega
      | some elem =>
        dsimp only
        refine ⟨_, _, rfl, ?_⟩
        refine ⟨_, ?_, by simp, rfl⟩
        rw [objValueAt_setParentAt rest target e.object tk parent _ hp]
        exact JsonObject.get_insert_self parent tk _
    · intro hge
      have hg : xs.get? i = none := List.get?_eq_none.mpr hge
      rw [hg]
      dsimp only
      rw [setParentAt_self rest target e.object tk parent hp]

/-- C5 witness: on the source's test object, index 2 into the length-2
array `claim2` fails with `IndexOutOfBounds 2`. -/
theorem c5_concealArrayEntry_spec_witness :
    encTest.concealArrayEntry ["claim2"] 2 (some "s") fixedSrc =
      (.error (.indexOutOfBounds 2), encTest) :=
  (c5_concealArrayEntry_spec encTest "claim2" [] 2 (some "s") fixedSrc
    [.str "arr-value1", .str "arr-value2"] (by decide)).2 (by decide)

/-- C3 (amended): the encoder's `conceal` leaves the object unchanged on
every `InvalidPath` failure and performs both the removal and the digest
insertion on success; but on a `DataTypeMismatch` failure (the parent's
`_sd` member, after the removal, exists and is not an array) the target
property has already been removed while no digest was inserted — the
operation is not atomic in that case. -/
theorem c3_conceal_mutation_spec (e : SdObjectEncoder) (path : List String)
    (salt : Option String) (src : Nat → Fin 62) (r : Except Error Disclosure)
    (e' : SdObjectEncoder) (h : e.conceal path salt src = (r, e')) :
    ((∃ msg, r = .error (.invalidPath msg)) → e' = e) ∧
    (∀ msg, r = .error (.dataTypeMismatch msg) →
      ∃ target rest tk parent v w,
        path = target :: rest ∧
        parentAt e.object target rest = some (tk, parent) ∧
        parent.get tk = some v ∧
        (parent.erase tk).get "_sd" = some w ∧ (∀ ys, w ≠ .arr ys) ∧
        e'.object = setParentAt e.object target rest (parent.erase tk) ∧
        e'.salt_length = e.salt_length ∧ e'.hasher = e.hasher) ∧
    (∀ d, r = .ok d →
      ∃ target rest tk parent v parent2,
        path = target :: rest ∧
        parentAt e.object target rest = some (tk, parent) ∧
        parent.get tk = some v ∧
        d = Disclosure.new (salt.getD (genRand src e.salt_length)) (some tk) v ∧
        addDigestToObject (parent.erase tk) (digestB64UrlOnlyAscii e.hasher d.asStr) =
          .ok parent2 ∧
        e'.object = setParentAt e.object target rest parent2 ∧
        e'.salt_length = e.salt_length ∧ e'.hasher = e.hasher) := by
  match path with
  | [] =>
    unfold SdObjectEncoder.conceal at h
    dsimp only at h
    obtain ⟨hr, he⟩ := Prod.mk.injEq .. ▸ h
    refine ⟨fun _ => he.symm ▸ rfl, ?_, ?_⟩
    · intro msg hmsg
      rw [hmsg] at hr
      simp at hr
    · intro d hd
      rw [hd] at hr
      simp at hr
  | target :: rest =>
    unfold SdObjectEncoder.conceal at h
    dsimp only at h
    match hp : parentAt e.object target rest with
    | none =>
      obtain ⟨msg, hm⟩ := modifyParent_nav_none
        (fun tk parent =>
          match parent.get tk with
          | none => (.error (.invalidPath (tk ++ " does not exist")), parent)
          | some v =>
            let parent' := parent.erase tk
            let d := Disclosure.new (salt.getD (genRand src e.salt_length)) (some tk) v
            let hash := digestB64UrlOnlyAscii e.hasher d.asStr
            match addDigestToObject parent' hash with
            | .ok parent'' => (.ok d, parent'')
            | .error err => (.error err, parent')) rest target e.object hp
      rw [hm] at h
      dsimp only at h
      obtain ⟨hr, he⟩ := Prod.mk.injEq .. ▸ h
      refine ⟨fun _ => ?_, ?_, ?_⟩
      · rw [← he]
      · intro m hmsg
        rw [hmsg] at hr
        simp at hr
      · intro d hd
        rw [hd] at hr
        simp at hr
    | some (tk, parent) =>
      rw [parentAt_modifyParent _ rest target e.object tk parent hp] at h
      dsimp only at h
      match hg : parent.get tk with
      | none =>
        rw [hg] at h
        dsimp only at h
        obtain ⟨hr, he⟩ := Prod.mk.injEq .. ▸ h
        rw [setParentAt_self rest target e.object tk parent hp] at he
        refine ⟨fun _ => ?_, ?_, ?_⟩
        · rw [← he]
        · intro m hmsg
          rw [hmsg] at hr
          simp at hr
        · intro d hd
          rw [hd] at hr
          simp at hr
      | some v =>
        rw [hg] at h
        dsimp only at h
        match ha : addDigestToObject (parent.erase tk)
            (digestB64UrlOnlyAscii e.hasher
              (Disclosure.new (salt.getD (genRand src e.salt_length)) (some tk) v).asStr) with
        | .ok parent2 =>
          rw [ha] at h
          dsimp only at h
          obtain ⟨hr, he⟩ := Prod.mk.injEq .. ▸ h
          refine ⟨?_, ?_, ?_⟩
          · rintro ⟨msg, hmsg⟩
            rw [hmsg] at hr
            simp at hr
          · intro m hmsg
            rw [hmsg] at hr
            simp at hr
          · intro d hd
            rw [hd] at hr
            simp only [Except.ok.injEq] at hr
            subst hr
            exact ⟨target, rest, tk, parent, v, parent2, rfl, hp, hg, rfl, ha, by rw [← he],
              by rw [← he], by rw [← he]⟩
        | .error err =>
          rw [ha] at h
          dsimp only at h
          obtain ⟨hr, he⟩ := Prod.mk.injEq .. ▸ h
          unfold addDigestToObject at ha
          refine ⟨?_, ?_, ?_⟩
          · rintro ⟨msg, hmsg⟩
            rw [hmsg] at hr
            split at ha
            · simp at ha
            · next w hw hnb =>
              simp only [Except.error.injEq] at ha
              rw [← ha] at hr
              simp at hr
            · simp at ha
          · intro m hmsg
            rw [hmsg] at hr
            split at ha
            · simp at ha
            · next w hw hnb =>
              simp only [Except.error.injEq] at ha
              refine ⟨target, rest, tk, parent, v, w, rfl, hp, hg, hnb,
                fun ys hys => hw ys hys, by rw [← he], by rw [← he], by rw [← he]⟩
            · simp at ha
          · intro d hd
            rw [hd] at hr
            split at ha
            · simp at ha
            · simp only [Except.error.injEq] at ha
              rw [← ha] at hr
              simp at hr
            · simp at ha

/-- C3 counterexample: on `{"a": 1, "_sd": 5}`, `conceal(["a"])` returns
`DataTypeMismatch` yet the encoder's object has lost the property `a`,
contradicting the claim that an erring `conceal` leaves the object
unchanged. -/
theorem c3_counterexample :
    (encBadSd.conceal ["a"] (some "s") fixedSrc).1 =
      .error (.dataTypeMismatch "invalid object: existing `_sd` type is not an array") ∧
    (encBadSd.conceal ["a"] (some "s") fixedSrc).2.object = [("_sd", .num 5)] ∧
    encBadSd.object ≠ [("_sd", .num 5)] := by
  refine ⟨by decide, by decide, by decide⟩

/-- C3 witness: the success case of the characterization at a concrete
input (`conceal(["id"])` on the test object removes `id` and inserts the
digest). -/
theorem c3_conceal_mutation_spec_witness :
    ∃ target rest tk parent v parent2,
      (["id"] : List String) = target :: rest ∧
      parentAt encTest.object target rest = some (tk, parent) ∧
      parent.get tk = some v ∧
      (Disclosure.new "s" (some "id") (.str "did:value")) =
        Disclosure.new ((some "s").getD (genRand fixedSrc encTest.salt_length))
          (some tk) v ∧
      addDigestToObject (parent.erase tk)
        (digestB64UrlOnlyAscii encTest.hasher
          (Disclosure.new "s" (some "id") (.str "did:value")).asStr) = .ok parent2 ∧
      (encTest.conceal ["id"] (some "s") fixedSrc).2.object =
        setParentAt encTest.object target rest parent2 ∧
      (encTest.conceal ["id"] (some "s") fixedSrc).2.salt_length = encTest.salt_length ∧
      (encTest.conceal ["id"] (some "s") fixedSrc).2.hasher = encTest.hasher :=
  (c3_conceal_mutation_spec encTest ["id"] (some "s") fixedSrc
    (encTest.conceal ["id"] (some "s") fixedSrc).1
    (encTest.conceal ["id"] (some "s") fixedSrc).2 rfl).2.2
    (Disclosure.new "s" (some "id") (.str "did:value")) (by decide)

theorem mp_array_mid (f : String → JsonObject → Except Error Disclosure × JsonObject) :
    ∀ (pre : List String) (o : JsonObject) (k : String) (post : List String)
      (xs : List Value), post ≠ [] → objValueAt o (pre ++ [k]) = some (.arr xs) →
      ∀ t r, pre ++ [k] ++ post = t :: r →
      modifyParent o t r f = (.error (.invalidPath (k ++ " is not an object")), o)
  | [], o, k, post, xs => by
    intro hpost hv t r hp
    simp only [List.nil_append, List.cons_append] at hp
    obtain ⟨ht, hr⟩ := List.cons.injEq .. ▸ hp
    subst ht; subst hr
    match post with
    | [] => exact absurd rfl hpost
    | n :: post' =>
      simp only [objValueAt] at hv
      unfold modifyParent
      rw [hv]
  | p0 :: pre', o, k, post, xs => by
    intro hpost hv t r hp
    simp only [List.cons_append] at hp
    obtain ⟨ht, hr⟩ := List.cons.injEq .. ▸ hp
    subst ht; subst hr
    obtain ⟨y, ys, hys⟩ : ∃ y ys, pre' ++ [k] = y :: ys := by
      match hpk : pre' ++ [k] with
      | [] => exact absurd hpk (by simp)
      | y :: ys => exact ⟨y, ys, rfl⟩
    simp only [List.cons_append] at hv
    rw [hys] at hv
    simp only [objValueAt] at hv
    match hg : o.get p0 with
    | some (.obj inner) =>
      rw [hg] at hv
      have hv' : objValueAt inner (pre' ++ [k]) = some (.arr xs) := by
        rw [hys]
        match ys with
        | [] => simpa [objValueAt] using hv
        | _ :: _ => simpa [objValueAt] using hv
      obtain ⟨t', r', ht'⟩ : ∃ t' r', pre' ++ [k] ++ post = t' :: r' := by
        match hpk : pre' ++ [k] ++ post with
        | [] => exact absurd hpk (by simp)
        | t' :: r' => exact ⟨t', r', rfl⟩
      have ih := mp_array_mid f pre' inner k post xs hpost hv' t' r' ht'
      rw [ht']
      unfold modifyParent
      rw [hg]
      dsimp only
      rw [ih]
      dsimp only
      rw [JsonObject.insert_self_of_get o p0 (.obj inner) hg]
    | none => rw [hg] at hv; simp at hv
    | some .null => rw [hg] at hv; revert hv; cases ys <;> simp [objValueAt]
    | some (.bool b) => rw [hg] at hv; revert hv; cases ys <;> simp [objValueAt]
    | some (.num n) => rw [hg] at hv; revert hv; cases ys <;> simp [objValueAt]
    | some (.str s) => rw [hg] at hv; revert hv; cases ys <;> simp [objValueAt]
    | some (.arr a) => rw [hg] at hv; revert hv; cases ys <;> simp [objValueAt]

theorem modifyParent_fst_ok
    (f : String → JsonObject → Except Error Disclosure × JsonObject)
    (rest : List String) (target : String) (o : JsonObject) (d : Disclosure)
    (h : (modifyParent o target rest f).1 = .ok d) :
    ∃ tk parent, parentAt o target rest = some (tk, parent) ∧
      (f tk parent).1 = .ok d ∧
      (modifyParent o target rest f).2 = setParentAt o target rest (f tk parent).2 := by
  match hp : parentAt o target rest with
  | some (tk, parent) =>
    rw [parentAt_modifyParent f rest target o tk parent hp] at h ⊢
    exact ⟨tk, parent, rfl, h, rfl⟩
  | none =>
    exact absurd h (by
      obtain ⟨msg, hm⟩ := modifyParent_nav_none f rest target o hp
      rw [hm]
      simp)

/-- C4 (amended): the encoder's `conceal` never handles array parents: a
path that traverses an array value fails with
`InvalidPath("<key> is not an object")`, leaving the encoder unchanged;
array elements are concealed only through `conceal_array_entry`, whose
returned disclosure carries `claim_name = None` and a clone of the indexed
element as claim value. -/
theorem c4_amended_statement :
    (∀ (e : SdObjectEncoder) (pre : List String) (k : String) (post : List String)
       (salt : Option String) (src : Nat → Fin 62) (xs : List Value), post ≠ [] →
       objValueAt e.object (pre ++ [k]) = some (.arr xs) →
       e.conceal (pre ++ [k] ++ post) salt src =
         (.error (.invalidPath (k ++ " is not an object")), e)) ∧
    (∀ (e : SdObjectEncoder) (path : List String) (i : Nat) (salt : Option String)
       (src : Nat → Fin 62) (d : Disclosure) (e' : SdObjectEncoder),
       e.concealArrayEntry path i salt src = (.ok d, e') →
       d.claim_name = none ∧
       ∃ target rest tk parent xs elem, path = target :: rest ∧
         parentAt e.object target rest = some (tk, parent) ∧
         parent.get tk = some (.arr xs) ∧ xs.get? i = some elem ∧
         d = Disclosure.new (salt.getD (genRand src e.salt_length)) none elem) := by
  constructor
  · intro e pre k post salt src xs hpost hv
    obtain ⟨t, r, htr⟩ : ∃ t r, pre ++ [k] ++ post = t :: r := by
      match hpk : pre ++ [k] ++ post with
      | [] => exact absurd hpk (by simp)
      | t :: r => exact ⟨t, r, rfl⟩
    rw [htr]
    unfold SdObjectEncoder.conceal
    dsimp only
    rw [mp_array_mid _ pre e.object k post xs hpost hv t r htr]
  · intro e path i salt src d e' h
    match path with
    | [] =>
      unfold SdObjectEncoder.concealArrayEntry at h
      dsimp only at h
      exact absurd (congrArg Prod.fst h) (by simp)
    | target :: rest =>
      unfold SdObjectEncoder.concealArrayEntry at h
      dsimp only at h
      have hr := congrArg Prod.fst h
      obtain ⟨tk, parent, hp, hf, _⟩ := modifyParent_fst_ok _ rest target e.object d hr
      match hg : parent.get tk with
      | none =>
        rw [hg] at hf
        simp at hf
      | some .null => rw [hg] at hf; simp at hf
      | some (.bool b) => rw [hg] at hf; simp at hf
      | some (.num n) => rw [hg] at hf; simp at hf
      | some (.str s) => rw [hg] at hf; simp at hf
      | some (.obj o2) => rw [hg] at hf; simp at hf
      | some (.arr xs) =>
        rw [hg] at hf
        dsimp only at hf
        match hgi : xs.get? i with
        | none =>
          rw [hgi] at hf
          simp at hf
        | some elem =>
          rw [hgi] at hf
          dsimp only at hf
          simp only [Except.ok.injEq] at hf
          subst hf
          exact ⟨rfl, target, rest, tk, parent, xs, elem, rfl, hp, hg, hgi, rfl⟩

/-- C4 counterexample: on the test object, `conceal(["claim2", "0"])` is an
`InvalidPath` error rather than a successful array-slot concealment, even
though `claim2` is an array and index 0 is in bounds. -/
theorem c4_counterexample :
    (encTest.conceal ["claim2", "0"] (some "s") fixedSrc).1 =
      .error (.invalidPath "claim2 is not an object") ∧
    (encTest.conceal ["claim2", "0"] (some "s") fixedSrc).2.object = encTestObj ∧
    objValueAt encTest.object ["claim2"] =
      some (.arr [.str "arr-value1", .str "arr-value2"]) := by
  refine ⟨by decide, by decide, by decide⟩

/-- C4 witness: both halves of the amended statement at concrete inputs. -/
theorem c4_amended_statement_witness :
    encTest.conceal ([] ++ ["claim2"] ++ ["0"]) (some "s") fixedSrc =
      (.error (.invalidPath ("claim2" ++ " is not an object")), encTest) ∧
    (Disclosure.new "s" none (.str "arr-value1")).claim_name = none := by
  refine ⟨c4_amended_statement.1 encTest [] "claim2" ["0"] (some "s") fixedSrc
    [.str "arr-value1", .str "arr-value2"] (by decide) (by decide), ?_⟩
  have h1 : (encTest.concealArrayEntry ["claim2"] 0 (some "s") fixedSrc).1 =
      .ok (Disclosure.new "s" none (.str "arr-value1")) := by decide
  have h : encTest.concealArrayEntry ["claim2"] 0 (some "s") fixedSrc =
      (.ok (Disclosure.new "s" none (.str "arr-value1")),
       (encTest.concealArrayEntry ["claim2"] 0 (some "s") fixedSrc).2) := by
    rw [← h1]
  exact (c4_amended_statement.2 encTest ["claim2"] 0 (some "s") fixedSrc _ _ h).1

theorem alphanumericChar_ok : ∀ i : Fin 62, isAlphanumChar (alphanumericChar i) = true := by
  decide

/-- C8 (amended): every salt the encoder generates when the caller
supplies none — in `conceal`, `conceal_array_entry` and decoy generation —
is a string of exactly `salt_length` characters drawn from the
alphanumeric alphabet `[A-Za-z0-9]` (not the base64url encoding of
`salt_length` random bytes); the default salt length is 30, so default
salts are 30-character strings. -/
theorem c8_salt_generation :
    (∀ (src : Nat → Fin 62) (len : Nat),
      (genRand src len).length = len ∧
      ∀ c ∈ (genRand src len).toList, isAlphanumChar c = true) ∧
    DEFAULT_SALT_SIZE = 30 ∧
    (∀ (h : Hasher) (v : Value) (e : SdObjectEncoder),
      SdObjectEncoder.tryFromValue h v = .ok e → e.salt_length = DEFAULT_SALT_SIZE) ∧
    (∀ (e : SdObjectEncoder) (path : List String) (src : Nat → Fin 62)
       (d : Disclosure) (e' : SdObjectEncoder),
      e.conceal path none src = (.ok d, e') → d.salt = genRand src e.salt_length) ∧
    (∀ (e : SdObjectEncoder) (path : List String) (i : Nat) (src : Nat → Fin 62)
       (d : Disclosure) (e' : SdObjectEncoder),
      e.concealArrayEntry path i none src = (.ok d, e') →
        d.salt = genRand src e.salt_length) ∧
    (∀ (e : SdObjectEncoder) (path : List String) (r : DecoyRand)
       (d : Disclosure) (e' : SdObjectEncoder),
      e.addDecoy path r = (.ok d, e') → d.salt = genRand r.saltSrc e.salt_length) := by
  refine ⟨?_, rfl, ?_, ?_, ?_, ?_⟩
  · intro src len
    constructor
    · simp [genRand, String.length]
    · intro c hc
      obtain ⟨i, _, hi⟩ := List.mem_map.mp
        (show c ∈ (List.range len).map (fun j => alphanumericChar (src j)) from hc)
      rw [← hi]
      exact alphanumericChar_ok (src i)
  · intro h v e he
    match v with
    | .obj o =>
      simp only [SdObjectEncoder.tryFromValue, Except.ok.injEq] at he
      rw [← he]
    | .null => simp [SdObjectEncoder.tryFromValue] at he
    | .bool b => simp [SdObjectEncoder.tryFromValue] at he
    | .num n => simp [SdObjectEncoder.tryFromValue] at he
    | .str s => simp [SdObjectEncoder.tryFromValue] at he
    | .arr xs => simp [SdObjectEncoder.tryFromValue] at he
  · intro e path src d e' h
    match path with
    | [] =>
      unfold SdObjectEncoder.conceal at h
      dsimp only at h
      exact absurd (congrArg Prod.fst h) (by simp)
    | target :: rest =>
      unfold SdObjectEncoder.conceal at h
      dsimp only at h
      have hr := congrArg Prod.fst h
      obtain ⟨tk, parent, hp, hf, _⟩ := modifyParent_fst_ok _ rest target e.object d hr
      match hg : parent.get tk with
      | none => rw [hg] at hf; simp at hf
      | some v =>
        rw [hg] at hf
        dsimp only at hf
        match ha : addDigestToObject (parent.erase tk)
            (digestB64UrlOnlyAscii e.hasher
              (Disclosure.new ((none : Option String).getD (genRand src e.salt_length))
                (some tk) v).asStr) with
        | .ok parent2 =>
          rw [ha] at hf
          simp only [Except.ok.injEq] at hf
          rw [← hf]
          rfl
        | .error err =>
          rw [ha] at hf
          simp at hf
  · intro e path i src d e' h
    match path with
    | [] =>
      unfold SdObjectEncoder.concealArrayEntry at h
      dsimp only at h
      exact absurd (congrArg Prod.fst h) (by simp)
    | target :: rest =>
      unfold SdObjectEncoder.concealArrayEntry at h
      dsimp only at h
      have hr := congrArg Prod.fst h
      obtain ⟨tk, parent, hp, hf, _⟩ := modifyParent_fst_ok _ rest target e.object d hr
      match hg : parent.get tk with
      | none => rw [hg] at hf; simp at hf
      | some .null => rw [hg] at hf; simp at hf
      | some (.bool b) => rw [hg] at hf; simp at hf
      | some (.num n) => rw [hg] at hf; simp at hf
      | some (.str s) => rw [hg] at hf; simp at hf
      | some (.obj o2) => rw [hg] at hf; simp at hf
      | some (.arr xs) =>
        rw [hg] at hf
        dsimp only at hf
        match hgi : xs.get? i with
        | none => rw [hgi] at hf; simp at hf
        | some elem =>
          rw [hgi] at hf
          simp only [Except.ok.injEq] at hf
          rw [← hf]
          rfl
  · intro e path r d e' h
    match path with
    | [] =>
      unfold SdObjectEncoder.addDecoy at h
      dsimp only at h
      match ha : addDigestToObject e.object (randomDigest e.hasher e.salt_length true r).2 with
      | .ok o' =>
        rw [ha] at h
        dsimp only at h
        have hr := congrArg Prod.fst h
        simp only [Except.ok.injEq] at hr
        rw [← hr]
        rfl
      | .error err =>
        rw [ha] at h
        dsimp only at h
        exact absurd (congrArg Prod.fst h) (by simp)
    | target :: rest =>
      unfold SdObjectEncoder.addDecoy at h
      dsimp only at h
      have hr := congrArg Prod.fst h
      obtain ⟨tk, parent, hp, hf, _⟩ := modifyParent_fst_ok _ rest target e.object d hr
      match hg : parent.get tk with
      | none => rw [hg] at hf; simp at hf
      | some .null => rw [hg] at hf; simp at hf
      | some (.bool b) => rw [hg] at hf; simp at hf
      | some (.num n) => rw [hg] at hf; simp at hf
      | some (.str s) => rw [hg] at hf; simp at hf
      | some (.obj inner) =>
        rw [hg] at hf
        dsimp only at hf
        match ha : addDigestToObject inner (randomDigest e.hasher e.salt_length true r).2 with
        | .ok inner2 =>
          rw [ha] at hf
          simp only [Except.ok.injEq] at hf
          rw [← hf]
          rfl
        | .error err =>
          rw [ha] at hf
          simp at hf
      | some (.arr xs) =>
        rw [hg] at hf
        simp only [Except.ok.injEq] at hf
        rw [← hf]
        rfl

/-- C8 counterexample: with the default salt size of 30, a generated salt
has 30 characters, not 40 as the base64url encoding of 30 random bytes
would; `conceal` with no salt uses exactly that 30-character string. -/
theorem c8_counterexample :
    (genRand fixedSrc DEFAULT_SALT_SIZE).length = 30 ∧
    ¬((genRand fixedSrc DEFAULT_SALT_SIZE).length = 40) ∧
    (encTest.conceal ["id"] none fixedSrc).1 =
      .ok (Disclosure.new "AAAAAAAAAAAAAAAAAAAAAAAAAAAAAA" (some "id")
        (.str "did:value")) := by
  refine ⟨by decide, by decide, by decide⟩

/-- C8 witness: the salt-extraction conjunct applied at a concrete
concealment. -/
theorem c8_salt_generation_witness :
    (genRand fixedSrc 30).length = 30 ∧
    (Disclosure.new "AAAAAAAAAAAAAAAAAAAAAAAAAAAAAA" (some "id")
      (.str "did:value")).salt = genRand fixedSrc encTest.salt_length := by
  refine ⟨(c8_salt_generation.1 fixedSrc 30).1, ?_⟩
  have h1 : (encTest.conceal ["id"] none fixedSrc).1 =
      .ok (Disclosure.new "AAAAAAAAAAAAAAAAAAAAAAAAAAAAAA" (some "id")
        (.str "did:value")) := by decide
  have h : encTest.conceal ["id"] none fixedSrc =
      (.ok (Disclosure.new "AAAAAAAAAAAAAAAAAAAAAAAAAAAAAA" (some "id")
        (.str "did:value")), (encTest.conceal ["id"] none fixedSrc).2) := by
    rw [← h1]
  exact c8_salt_generation.2.2.2.1 encTest ["id"] fixedSrc _ _ h

mutual

theorem getAllSub_mem : ∀ (v : Value) (ds : DisclosureMap) (dig : String),
    dig ∈ getAllSubDisclosures v ds → (ds.lookup dig).isSome = true
  | .obj o, ds, dig => by
    intro h
    rw [getAllSubDisclosures, List.mem_append] at h
    rcases h with h | h
    · exact (List.mem_filter.mp h).2
    · exact getAllSubObjVals_mem o ds dig h
  | .arr xs, ds, dig => by
    intro h
    rw [getAllSubDisclosures] at h
    exact getAllSubArr_mem xs ds dig h
  | .null, ds, dig => by intro h; simp [getAllSubDisclosures] at h
  | .bool b, ds, dig => by intro h; simp [getAllSubDisclosures] at h
  | .num n, ds, dig => by intro h; simp [getAllSubDisclosures] at h
  | .str s, ds, dig => by intro h; simp [getAllSubDisclosures] at h

theorem getAllSubObjVals_mem : ∀ (xs : List (String × Value)) (ds : DisclosureMap)
    (dig : String), dig ∈ getAllSubObjVals xs ds → (ds.lookup dig).isSome = true
  | [], ds, dig => by intro h; simp [getAllSubObjVals] at h
  | (k, v) :: xs, ds, dig => by
    intro h
    rw [getAllSubObjVals, List.mem_append] at h
    rcases h with h | h
    · exact getAllSub_mem v ds dig h
    · exact getAllSubObjVals_mem xs ds dig h

theorem getAllSubArr_mem : ∀ (xs : List Value) (ds : DisclosureMap) (dig : String),
    dig ∈ getAllSubArr xs ds → (ds.lookup dig).isSome = true
  | [], ds, dig => by intro h; simp [getAllSubArr] at h
  | v :: xs, ds, dig => by
    intro h
    rw [getAllSubArr, List.mem_append] at h
    rcases h with h | h
    · match hk : valueGetKey v "..." with
      | some (.str dig') =>
        rw [hk] at h
        dsimp only at h
        by_cases hs : (ds.lookup dig').isSome = true
        · rw [if_pos hs] at h
          rw [List.mem_singleton.mp h]
          exact hs
        · rw [if_neg hs] at h
          simp at h
      | none => rw [hk] at h; dsimp only at h; exact getAllSub_mem v ds dig h
      | some .null => rw [hk] at h; dsimp only at h; exact getAllSub_mem v ds dig h
      | some (.bool b) => rw [hk] at h; dsimp only at h; exact getAllSub_mem v ds dig h
      | some (.num n) => rw [hk] at h; dsimp only at h; exact getAllSub_mem v ds dig h
      | some (.arr a) => rw [hk] at h; dsimp only at h; exact getAllSub_mem v ds dig h
      | some (.obj oo) => rw [hk] at h; dsimp only at h; exact getAllSub_mem v ds dig h
    · exact getAllSubArr_mem xs ds dig h

end

theorem concealFn_ok_mem : ∀ (path : List String) (object : Value) (ds : DisclosureMap)
    (digs : List String), concealFn object path ds = .ok digs →
    ∀ dig ∈ digs, (ds.lookup dig).isSome = true
  | [], object, ds, digs => by
    intro h
    simp [concealFn] at h
  | elementKey :: rest, object, ds, digs => by
    intro h dig hdig
    match object with
    | .obj o =>
      rw [concealFn] at h
      by_cases hrest : rest ≠ []
      · rw [if_pos hrest] at h
        match hn : (match JsonObject.get o elementKey with
            | some v => some v
            | none =>
              (findDisclosure o elementKey ds).bind
                (fun dg => (ds.lookup dg).map Disclosure.claim_value)) with
        | some next =>
          rw [hn] at h
          exact concealFn_ok_mem rest next ds digs h dig hdig
        | none =>
          rw [hn] at h
          simp at h
      · rw [if_neg hrest] at h
        match hfd : findDisclosure o elementKey ds with
        | none => rw [hfd] at h; simp at h
        | some dg =>
          rw [hfd] at h
          dsimp only at h
          match hl : ds.lookup dg with
          | some d =>
            rw [hl] at h
            simp only [Except.ok.injEq] at h
            rw [← h] at hdig
            rw [List.mem_append] at hdig
            rcases hdig with hdig | hdig
            · exact getAllSub_mem d.claim_value ds dig hdig
            · rw [List.mem_singleton.mp hdig, hl]
              rfl
          | none => rw [hl] at h; simp at h
    | .arr xs =>
      rw [concealFn] at h
      match hidx : (parseUsize elementKey).filter (fun idx => xs.length > idx) with
      | none => rw [hidx] at h; simp at h
      | some index =>
        rw [hidx] at h
        dsimp only at h
        by_cases hrest : rest ≠ []
        · rw [if_pos hrest] at h
          match hg : xs.get? index with
          | some next =>
            rw [hg] at h
            exact concealFn_ok_mem rest next ds digs h dig hdig
          | none => rw [hg] at h; simp at h
        · rw [if_neg hrest] at h
          match hg : xs.get? index with
          | none => rw [hg] at h; simp at h
          | some entry =>
            rw [hg] at h
            dsimp only at h
            match hdq : (match entry with
                | .obj eo => findDisclosure eo "" ds
                | _ => none) with
            | none => rw [hdq] at h; simp at h
            | some dg =>
              rw [hdq] at h
              dsimp only at h
              match hl : ds.lookup dg with
              | some d =>
                rw [hl] at h
                simp only [Except.ok.injEq] at h
                rw [← h] at hdig
                rw [List.mem_append] at hdig
                rcases hdig with hdig | hdig
                · exact getAllSub_mem d.claim_value ds dig hdig
                · rw [List.mem_singleton.mp hdig, hl]
                  rfl
              | none => rw [hl] at h; simp at h
    | .null => simp [concealFn] at h
    | .bool b => simp [concealFn] at h
    | .num n => simp [concealFn] at h
    | .str s => simp [concealFn] at h

theorem dm_lookup_none_iff : ∀ (m : DisclosureMap) (k : String),
    m.lookup k = none ↔ k ∉ m.map Prod.fst
  | [], k => by simp [DisclosureMap.lookup]
  | (k', d) :: m, k => by
    by_cases hk : k' = k
    · subst hk
      simp [DisclosureMap.lookup]
    · simp only [DisclosureMap.lookup, if_neg hk, List.map_cons, List.mem_cons]
      rw [dm_lookup_none_iff m k]
      constructor
      · intro hm hor
        rcases hor with hor | hor
        · exact hk hor.symm
        · exact hm hor
      · intro hn hm
        exact hn (Or.inr hm)

theorem dm_lookup_erase_none : ∀ (m : DisclosureMap) (k dig : String),
    m.lookup dig = none → (m.erase k).lookup dig = none
  | [], k, dig => by simp [DisclosureMap.erase]
  | (k', d) :: m, k, dig => by
    intro h
    by_cases hd : k' = dig
    · subst hd
      simp [DisclosureMap.lookup] at h
    · simp only [DisclosureMap.lookup, if_neg hd] at h
      by_cases hk : k' = k
      · simp only [DisclosureMap.erase, if_pos hk]
        exact h
      · simp only [DisclosureMap.erase, if_neg hk, DisclosureMap.lookup, if_neg hd]
        exact dm_lookup_erase_none m k dig h

theorem dm_lookup_erase_ne : ∀ (m : DisclosureMap) (k dig : String), dig ≠ k →
    (m.erase k).lookup dig = m.lookup dig
  | [], k, dig => by simp [DisclosureMap.erase]
  | (k', d) :: m, k, dig => by
    intro hne
    by_cases hk : k' = k
    · rw [show DisclosureMap.erase ((k', d) :: m) k = m from by
        simp [DisclosureMap.erase, hk]]
      rw [show DisclosureMap.lookup ((k', d) :: m) dig = DisclosureMap.lookup m dig from by
        simp [DisclosureMap.lookup, show k' ≠ dig from fun hh => hne (hh ▸ hk)]]
    · rw [show DisclosureMap.erase ((k', d) :: m) k =
          (k', d) :: DisclosureMap.erase m k from by simp [DisclosureMap.erase, hk]]
      by_cases hd : k' = dig
      · simp [DisclosureMap.lookup, hd]
      · simp only [DisclosureMap.lookup, if_neg hd]
        exact dm_lookup_erase_ne m k dig hne

theorem dm_erase_map_fst : ∀ (m : DisclosureMap) (k : String),
    (m.erase k).map Prod.fst = (m.map Prod.fst).erase k
  | [], k => by simp [DisclosureMap.erase]
  | (k', d) :: m, k => by
    by_cases hk : k' = k
    · subst hk
      rw [show DisclosureMap.erase ((k', d) :: m) k' = m from by
        simp [DisclosureMap.erase]]
      simp [List.erase_cons_head]
    · rw [show DisclosureMap.erase ((k', d) :: m) k =
          (k', d) :: DisclosureMap.erase m k from by simp [DisclosureMap.erase, hk]]
      simp only [List.map_cons]
      rw [List.erase_cons_tail]
      · rw [dm_erase_map_fst m k]
      · simp [hk]

theorem dm_lookup_erase_self (m : DisclosureMap) (k : String)
    (hnd : (m.map Prod.fst).Nodup) : (m.erase k).lookup k = none := by
  rw [dm_lookup_none_iff, dm_erase_map_fst]
  intro hmem
  exact (List.Nodup.not_mem_erase hnd) hmem

theorem dm_erase_nodup (m : DisclosureMap) (k : String)
    (hnd : (m.map Prod.fst).Nodup) : ((m.erase k).map Prod.fst).Nodup := by
  rw [dm_erase_map_fst]
  exact hnd.erase k

theorem removeAll_preserves_none : ∀ (digs : List String) (m : DisclosureMap)
    (dig : String), m.lookup dig = none → ((m.removeAll digs).1).lookup dig = none
  | [], m, dig => fun h => h
  | dig0 :: rest, m, dig => by
    intro h
    rw [DisclosureMap.removeAll]
    match hl : m.lookup dig0 with
    | some d =>
      dsimp only
      exact removeAll_preserves_none rest (m.erase dig0) dig
        (dm_lookup_erase_none m dig0 dig h)
    | none =>
      dsimp only
      exact removeAll_preserves_none rest m dig h

theorem removeAll_spec : ∀ (digs : List String) (m : DisclosureMap),
    (m.map Prod.fst).Nodup →
    (∀ dig ∈ digs, ((m.removeAll digs).1).lookup dig = none) ∧
    (∀ dig ∈ digs, ∀ d, m.lookup dig = some d → d ∈ (m.removeAll digs).2)
  | [], m => by
    intro _
    exact ⟨by simp, by simp⟩
  | dig0 :: rest, m => by
    intro hnd
    rw [DisclosureMap.removeAll]
    match hl : m.lookup dig0 with
    | some d0 =>
      dsimp only
      have ih := removeAll_spec rest (m.erase dig0) (dm_erase_nodup m dig0 hnd)
      constructor
      · intro dig hdig
        rcases List.mem_cons.mp hdig with hdig | hdig
        · subst hdig
          exact removeAll_preserves_none rest (m.erase dig) dig
            (dm_lookup_erase_self m dig hnd)
        · exact ih.1 dig hdig
      · intro dig hdig d hd
        rcases List.mem_cons.mp hdig with hdig | hdig
        · subst hdig
          rw [hl] at hd
          rw [Option.some.injEq] at hd
          subst hd
          exact List.mem_cons_self _ _
        · by_cases hne : dig = dig0
          · subst hne
            rw [hl] at hd
            rw [Option.some.injEq] at hd
            subst hd
            exact List.mem_cons_self _ _
          · have : (m.erase dig0).lookup dig = some d := by
              rw [dm_lookup_erase_ne m dig0 dig hne]
              exact hd
            exact List.mem_cons_of_mem _ (ih.2 dig hdig d this)
    | none =>
      dsimp only
      have ih := removeAll_spec rest m hnd
      constructor
      · intro dig hdig
        rcases List.mem_cons.mp hdig with hdig | hdig
        · subst hdig
          exact removeAll_preserves_none rest m dig hl
        · exact ih.1 dig hdig
      · intro dig hdig d hd
        rcases List.mem_cons.mp hdig with hdig | hdig
        · subst hdig
          rw [hl] at hd
          exact absurd hd (by simp)
        · exact ih.2 dig hdig d hd

theorem builderConceal_ok (b b' : SdJwtPresentationBuilder) (p : String)
    (hc : b.conceal p = .ok b') :
    ∃ digs, concealFn b.object (builderPathSegs p) b.disclosures = .ok digs ∧
      b'.disclosures = (b.disclosures.removeAll digs).1 ∧
      b'.removed_disclosures =
        b.removed_disclosures ++ (b.disclosures.removeAll digs).2 ∧
      b'.object = b.object ∧ b'.sd_jwt = b.sd_jwt := by
  unfold SdJwtPresentationBuilder.conceal at hc
  match hcf : concealFn b.object (builderPathSegs p) b.disclosures with
  | .ok digs =>
    rw [hcf] at hc
    rw [exceptBind_ok] at hc
    simp only [Except.ok.injEq] at hc
    subst hc
    exact ⟨digs, rfl, rfl, rfl, rfl, rfl⟩
  | .error e =>
    rw [hcf] at hc
    rw [exceptBind_err] at hc
    simp at hc

theorem finish_components (b : SdJwtPresentationBuilder) (sd : SdJwt)
    (rem : List Disclosure) (hf : b.finish = .ok (sd, rem)) :
    sd.disclosures = b.disclosures.values ∧ rem = b.removed_disclosures := by
  unfold SdJwtPresentationBuilder.finish at hf
  split at hf
  · simp at hf
  · split at hf
    · split at hf
      · split at hf
        · simp only [Except.ok.injEq, Prod.mk.injEq] at hf
          obtain ⟨h1, h2⟩ := hf
          rw [← h1]
          exact ⟨rfl, h2.symm⟩
        · simp at hf
      · simp at hf
    · simp at hf

/-- C2 (amended): after a successful `conceal(p)` followed by a successful
`finish()`, on a builder whose digest keys are distinct (as they are for
every builder built by `new`), the returned disclosures are exactly the
remaining map's values and contain no entry for any digest collected by the
free `conceal` traversal — the target's digest plus every digest that
`get_all_sub_disclosures` finds syntactically inside the target
disclosure's claim value; every collected digest was present in the map,
and all their disclosures appear in the removed list returned by
`finish()`. Digests hidden behind further disclosures' claim values are not
followed (see the counterexample). -/
theorem c2_conceal_removes_syntactic (b b' : SdJwtPresentationBuilder) (p : String)
    (sd : SdJwt) (rem : List Disclosure) (digs : List String)
    (hnd : (b.disclosures.map Prod.fst).Nodup)
    (hc : b.conceal p = .ok b')
    (hf : b'.finish = .ok (sd, rem))
    (hcf : concealFn b.object (builderPathSegs p) b.disclosures = .ok digs) :
    sd.disclosures = b'.disclosures.values ∧
    (∀ dig ∈ digs, (b.disclosures.lookup dig).isSome = true) ∧
    (∀ dig ∈ digs, b'.disclosures.lookup dig = none) ∧
    (∀ dig ∈ digs, ∀ d, b.disclosures.lookup dig = some d → d ∈ rem) := by
  obtain ⟨digs', hcf', hdis, hrem, _, _⟩ := builderConceal_ok b b' p hc
  rw [hcf] at hcf'
  simp only [Except.ok.injEq] at hcf'
  subst hcf'
  obtain ⟨hnone, hmem⟩ := removeAll_spec digs b.disclosures hnd
  obtain ⟨hvals, hremeq⟩ := finish_components b' sd rem hf
  refine ⟨hvals, ?_, ?_, ?_⟩
  · exact concealFn_ok_mem (builderPathSegs p) b.object b.disclosures digs hcf
  · intro dig hdig
    rw [hdis]
    exact hnone dig hdig
  · intro dig hdig d hd
    rw [hremeq, hrem]
    exact List.mem_append_right _ (hmem dig hdig d hd)

set_option maxRecDepth 1000000 in
/-- C2 counterexample: concealing `a` removes the disclosures for `a` and
for `b` (whose digest appears syntactically inside `a`'s claim value), but
NOT the disclosure for `c`, whose digest is transitively reachable only
through `b`'s claim value; `c`'s disclosure remains in the finished
SD-JWT's disclosures, contradicting the claim. -/
theorem c2_counterexample :
    SdJwtPresentationBuilder.new c2SdJwt idHasher = .ok c2Builder ∧
    c2Builder.conceal "a" = .ok c2After ∧
    c2After.finish = .ok (c2Final, [c2DiscB, c2DiscA]) ∧
    SpecReachableDigest c2Builder.disclosures c2DiscA.claim_value c2DigC ∧
    c2DiscC ∈ c2Final.disclosures := by
  refine ⟨by decide, by decide, by decide, ?_, by decide⟩
  refine SpecReachableDigest.through _ c2DigB c2DigC c2DiscB ?_ (by decide) ?_
  · exact SpecReachableDigest.scan _ c2DigB (by decide)
  · exact SpecReachableDigest.scan _ c2DigC (by decide)

set_option maxRecDepth 1000000 in
/-- C2 witness: the amended statement at the concrete three-disclosure
builder. -/
theorem c2_conceal_removes_syntactic_witness :
    c2Final.disclosures = c2After.disclosures.values ∧
    (∀ dig ∈ [c2DigB, c2DigA], (c2Builder.disclosures.lookup dig).isSome = true) ∧
    (∀ dig ∈ [c2DigB, c2DigA], c2After.disclosures.lookup dig = none) ∧
    (∀ dig ∈ [c2DigB, c2DigA], ∀ d, c2Builder.disclosures.lookup dig = some d →
      d ∈ [c2DiscB, c2DiscA]) :=
  c2_conceal_removes_syntactic c2Builder c2After "a" c2Final [c2DiscB, c2DiscA]
    [c2DigB, c2DigA] (by decide) (by decide) (by decide) (by decide)

theorem dm_insert_append : ∀ (m : List (String × Disclosure)) (k : String)
    (d : Disclosure), DisclosureMap.lookup m k = none →
    DisclosureMap.insert m k d = m ++ [(k, d)]
  | [], k, d => by intro _; rfl
  | (k', d') :: m, k, d => by
    intro h
    by_cases hk : k' = k
    · subst hk
      simp [DisclosureMap.lookup] at h
    · simp only [DisclosureMap.lookup, if_neg hk] at h
      simp only [DisclosureMap.insert, if_neg hk, List.cons_append]
      exact congrArg (List.cons (k', d')) (dm_insert_append m k d h)

theorem dm_lookup_append : ∀ (m1 m2 : List (String × Disclosure)) (k : String),
    DisclosureMap.lookup (m1 ++ m2) k =
      (match DisclosureMap.lookup m1 k with
       | some d => some d
       | none => DisclosureMap.lookup m2 k)
  | [], m2, k => by
    rw [show DisclosureMap.lookup ([] : List (String × Disclosure)) k = none from rfl]
    rw [List.nil_append]
  | (k', d') :: m1, m2, k => by
    by_cases hk : k' = k
    · rw [List.cons_append]
      simp [DisclosureMap.lookup, hk]
    · rw [List.cons_append]
      simp only [DisclosureMap.lookup, if_neg hk]
      exact dm_lookup_append m1 m2 k

theorem dm_foldl_insert_fresh : ∀ (ps : List (String × Disclosure))
    (m : List (String × Disclosure)),
    (∀ p ∈ ps, DisclosureMap.lookup m p.1 = none) → (ps.map Prod.fst).Nodup →
    ps.foldl (fun (acc : DisclosureMap) p => acc.insert p.1 p.2) m = m ++ ps
  | [], m => by
    intro _ _
    exact (List.append_nil m).symm
  | (k, d) :: ps, m => by
    intro hfresh hnd
    simp only [List.foldl_cons]
    have hstep : DisclosureMap.insert m k d = m ++ [(k, d)] :=
      dm_insert_append m k d (hfresh (k, d) (List.mem_cons_self _ _))
    rw [show (DisclosureMap.insert m k d : DisclosureMap) = (m ++ [(k, d)] : List (String × Disclosure)) from hstep]
    simp only [List.map_cons, List.nodup_cons] at hnd
    rw [dm_foldl_insert_fresh ps (m ++ [(k, d)]) ?_ hnd.2]
    · rw [List.append_assoc]
      rfl
    · intro p hp
      rw [dm_lookup_append]
      rw [hfresh p (List.mem_cons_of_mem _ hp)]
      have hne : p.1 ≠ k := by
        intro he
        exact hnd.1 (he ▸ List.mem_map_of_mem Prod.fst hp)
      simp [DisclosureMap.lookup, Ne.symm hne]

theorem optionMapM_str_map : ∀ xs : List String,
    optionMapM (fun v => match v with | .str s => some s | _ => none)
      (xs.map Value.str) = some xs
  | [] => rfl
  | s :: xs => by
    simp only [List.map_cons, optionMapM]
    rw [optionMapM_str_map xs]
    rfl

/-- C9 (amended): for every SD-JWT whose `_sd_alg` (default `sha-256`)
matches the hasher, whose flattened properties do not already contain an
`_sd` key, whose disclosures have pairwise distinct encoded digests, and
which either has no `cnf` claim or carries a key-binding JWT, the builder
pipeline `into_presentation(hasher)` followed immediately by `finish()`
returns the original SD-JWT together with an empty removed list. -/
theorem c9_identity_roundtrip (sd : SdJwt) (hasher : Hasher)
    (b : SdJwtPresentationBuilder)
    (halg : hasher.algName = sd.claims.sd_alg.getD SHA_ALG_NAME)
    (hprop : sd.claims.properties.get "_sd" = none)
    (hnd : (sd.disclosures.map (fun d => hasher.encodedDigest d.asStr)).Nodup)
    (hkb : sd.claims.cnf = none ∨ sd.key_binding_jwt.isSome = true)
    (hnew : sd.intoPresentation hasher = .ok b) :
    b.finish = .ok (sd, []) := by
  obtain ⟨⟨header, ⟨sdl, alg, cnf, props⟩, raw⟩, discs, kb⟩ := sd
  dsimp only [SdJwt.claims] at halg hprop hkb
  dsimp only at hnd
  unfold SdJwt.intoPresentation SdJwtPresentationBuilder.new at hnew
  dsimp only [SdJwt.claims] at hnew
  rw [if_neg (show ¬ (alg.getD SHA_ALG_NAME ≠ hasher.algName) from by
    simp [halg])] at hnew
  simp only [Except.ok.injEq] at hnew
  subst hnew
  unfold SdJwtPresentationBuilder.finish SdJwt.requiredKeyBind
  dsimp only [SdJwt.claims]
  rw [if_neg (show ¬ (cnf.isSome = true ∧ kb.isNone = true) from by
    rcases hkb with h | h
    · subst h; simp
    · simp only [Option.isNone_iff_eq_none]
      rintro ⟨_, hc⟩
      rw [hc] at h
      simp at h)]
  rw [show JsonObject.get (props.insert "_sd" (.arr (sdl.map .str))) "_sd" =
      some (.arr (sdl.map .str)) from JsonObject.get_insert_self props "_sd" _]
  dsimp only [Option.getD_some]
  rw [optionMapM_str_map sdl]
  rw [JsonObject.erase_insert_of_get_none props "_sd" _ hprop]
  rw [dm_foldl_insert_fresh (discs.map (fun d => (hasher.encodedDigest d.asStr, d))) []
    (by intro p _; rfl)
    (by rw [List.map_map]; exact hnd)]
  rw [show DisclosureMap.values
      (([] : List (String × Disclosure)) ++ discs.map (fun d => (hasher.encodedDigest d.asStr, d)))
      = discs from by
    rw [List.nil_append]
    unfold DisclosureMap.values
    rw [List.map_map]
    exact List.map_id'' (fun _ => rfl) discs]

set_option maxRecDepth 1000000 in
/-- C9 counterexample: an SD-JWT whose flattened properties already hold an
`_sd` key (reachable via `claims_mut`) satisfies the claim's hypotheses
(no disclosures, no `cnf`) yet does not round-trip — the `_sd` property is
destroyed; and with a mismatching hasher the pipeline returns an error
rather than the original SD-JWT. -/
theorem c9_counterexample :
    c9Sd.disclosures = [] ∧ c9Sd.claims.cnf = none ∧
    (SdJwtPresentationBuilder.new c9Sd idHasher).bind SdJwtPresentationBuilder.finish =
      .ok (c9Final, []) ∧
    c9Final ≠ c9Sd ∧
    c9Sd.intoPresentation otherHasher =
      .error (.invalidHasher
        "hasher \"sha-384\" was provided, but \"sha-256 is required\"") := by
  refine ⟨rfl, rfl, by decide, by decide, by decide⟩

set_option maxRecDepth 1000000 in
/-- C9 witness: the amended statement at a concrete one-disclosure SD-JWT. -/
theorem c9_identity_roundtrip_witness :
    c9wSd.intoPresentation idHasher = .ok c9wBuilder ∧
    c9wBuilder.finish = .ok (c9wSd, []) :=
  ⟨by decide,
   c9_identity_roundtrip c9wSd idHasher c9wBuilder (by decide) (by decide) (by decide)
     (Or.inl (by decide)) (by decide)⟩

theorem splitSep_ne_nil : ∀ (c : Char) (l : List Char), splitSep c l ≠ []
  | c, [] => by simp [splitSep]
  | c, x :: xs => by
    by_cases hx : x = c
    · simp [splitSep, hx]
    · simp only [splitSep, if_neg hx]
      match h : splitSep c xs with
      | [] => simp
      | seg :: segs => simp

theorem joinSep_splitSep : ∀ (c : Char) (l : List Char), joinSep c (splitSep c l) = l
  | c, [] => by simp [splitSep, joinSep]
  | c, x :: xs => by
    by_cases hx : x = c
    · subst hx
      simp only [splitSep, if_pos rfl]
      match h : splitSep x xs with
      | [] => exact absurd h (splitSep_ne_nil x xs)
      | seg :: segs =>
        have ih := joinSep_splitSep x xs
        rw [h] at ih
        show joinSep x ([] :: seg :: segs) = x :: xs
        rw [show joinSep x ([] :: seg :: segs) =
            ([] : List Char) ++ x :: joinSep x (seg :: segs) from rfl]
        rw [ih]
        rfl
    · simp only [splitSep, if_neg hx]
      match h : splitSep c xs with
      | [] => exact absurd h (splitSep_ne_nil c xs)
      | seg :: segs =>
        have ih := joinSep_splitSep c xs
        rw [h] at ih
        match segs with
        | [] =>
          show joinSep c [x :: seg] = x :: xs
          have ih' : seg = xs := ih
          rw [show joinSep c [x :: seg] = x :: seg from rfl]
          rw [ih']
        | s2 :: srest =>
          show joinSep c ((x :: seg) :: s2 :: srest) = x :: xs
          have ih' : seg ++ c :: joinSep c (s2 :: srest) = xs := ih
          rw [show joinSep c ((x :: seg) :: s2 :: srest) =
              x :: (seg ++ c :: joinSep c (s2 :: srest)) from rfl]
          rw [ih']

theorem joinSep_append_singleton : ∀ (c : Char) (xs : List (List Char)) (y : List Char),
    xs ≠ [] → joinSep c (xs ++ [y]) = joinSep c xs ++ c :: y
  | c, [], y => by simp
  | c, [a], y => by
    intro _
    rfl
  | c, a :: b :: rest, y => by
    intro _
    have ih := joinSep_append_singleton c (b :: rest) y (by simp)
    rw [show joinSep c ((a :: b :: rest) ++ [y]) =
        a ++ c :: joinSep c ((b :: rest) ++ [y]) from rfl]
    rw [ih]
    rw [show joinSep c (a :: b :: rest) = a ++ c :: joinSep c (b :: rest) from rfl]
    simp

theorem joinSep_eq_flatMap : ∀ (c : Char) (a : List Char) (as : List (List Char)),
    joinSep c (a :: as) = a ++ as.flatMap (fun seg => c :: seg)
  | c, a, [] => by simp [joinSep]
  | c, a, b :: bs => by
    rw [show joinSep c (a :: b :: bs) = a ++ c :: joinSep c (b :: bs) from rfl]
    rw [joinSep_eq_flatMap c b bs]
    simp

theorem intercalate_go_spec : ∀ (l : List (List Char)) (acc : List Char),
    String.intercalate.go (String.mk acc) "~" (l.map String.mk) =
      String.mk (acc ++ l.flatMap (fun seg => '~' :: seg))
  | [], acc => by
    simp [String.intercalate.go]
  | b :: bs, acc => by
    simp only [List.map_cons]
    rw [String.intercalate.go]
    rw [show ("~" : String) = String.mk ['~'] from rfl]
    rw [show String.mk acc ++ String.mk ['~'] = String.mk (acc ++ ['~']) from rfl]
    rw [show String.mk (acc ++ ['~']) ++ String.mk b = String.mk ((acc ++ ['~']) ++ b) from rfl]
    rw [show ((acc ++ ['~']) ++ b) = acc ++ '~' :: b from by simp]
    rw [show (String.mk ['~'] : String) = "~" from rfl]
    rw [intercalate_go_spec bs (acc ++ '~' :: b)]
    simp

theorem intercalate_mk : ∀ (l : List (List Char)),
    String.intercalate "~" (l.map String.mk) = String.mk (joinSep '~' l)
  | [] => rfl
  | a :: as => by
    simp only [List.map_cons]
    rw [String.intercalate]
    rw [intercalate_go_spec as a]
    rw [joinSep_eq_flatMap '~' a as]

theorem jwtParse_raw (s : String) (j : Jwt) (h : Jwt.parse s = some j) : j.raw = s := by
  unfold Jwt.parse at h
  split at h
  · simp only [Option.bind_eq_bind, Option.bind_eq_some] at h
    obtain ⟨hObj, _, pObj, _, claims, _, hj⟩ := h
    simp only [Option.some.injEq] at hj
    rw [← hj]
  · simp at h

theorem disclosureParse_raw (s : String) (d : Disclosure)
    (h : Disclosure.parse s = some d) : d.raw = s := by
  unfold Disclosure.parse at h
  simp only [Option.bind_eq_bind, Option.bind_eq_some] at h
  obtain ⟨bytes, _, txt, _, v, _, hv⟩ := h
  split at hv
  · simp only [Option.some.injEq] at hv
    rw [← hv]
  · simp only [Option.some.injEq] at hv
    rw [← hv]
  · simp at hv

theorem kbParse_raw (s : String) (kb : KeyBindingJwt)
    (h : KeyBindingJwt.parse s = some kb) : kb.raw = s := by
  unfold KeyBindingJwt.parse at h
  split at h
  · simp only [Option.bind_eq_bind, Option.bind_eq_some] at h
    obtain ⟨hObj, _, pObj, _, hk⟩ := h
    simp only [Option.some.injEq] at hk
    rw [← hk]
  · simp at h

theorem disclosureParse_empty : Disclosure.parse "" = none := by decide

theorem exceptMapM_disclosures (segs : List (List Char)) (ds : List Disclosure)
    (h : exceptMapM (fun seg =>
        match Disclosure.parse (String.mk seg) with
        | some d => Except.ok d
        | none => Except.error (Error.deserializationError "invalid disclosure"))
      segs = .ok ds) :
    ds.map Disclosure.raw = segs.map String.mk ∧ ∀ seg ∈ segs, seg ≠ [] := by
  induction segs generalizing ds with
  | nil =>
    simp only [exceptMapM, Except.ok.injEq] at h
    subst h
    exact ⟨rfl, by simp⟩
  | cons seg rest ih =>
    rw [exceptMapM] at h
    match hp : Disclosure.parse (String.mk seg) with
    | none => rw [hp] at h; simp at h
    | some d =>
      rw [hp] at h
      dsimp only at h
      match hm : exceptMapM (fun seg =>
          match Disclosure.parse (String.mk seg) with
          | some d => Except.ok d
          | none => Except.error (Error.deserializationError "invalid disclosure")) rest with
      | .error e => rw [hm] at h; simp at h
      | .ok ds' =>
        rw [hm] at h
        simp only [Except.ok.injEq] at h
        subst h
        obtain ⟨ihmap, ihne⟩ := ih ds' hm
        constructor
        · simp only [List.map_cons, ihmap, List.cons.injEq, and_true]
          exact disclosureParse_raw (String.mk seg) d hp
        · intro sg hsg
          rcases List.mem_cons.mp hsg with hsg | hsg
          · subst hsg
            intro hnil
            rw [hnil] at hp
            rw [show String.mk ([] : List Char) = "" from rfl] at hp
            rw [disclosureParse_empty] at hp
            exact absurd hp (by simp)
          · exact ihne sg hsg

/-- C1: compact-serialization round trip — every string accepted by
`SdJwt::parse` re-serializes byte-for-byte through `presentation()`, and
re-parsing the serialization returns the same value. Relies on the
spec-mandated caching of the original bytes in the (spec-modelled) JWT,
disclosure and KB-JWT parsers. -/
theorem c1_roundtrip (s : String) (sd : SdJwt) (h : SdJwt.parse s = .ok sd) :
    sd.presentation = s ∧ SdJwt.parse sd.presentation = .ok sd := by
  have hcat : ∀ (a b : List Char),
      String.mk a ++ "~" ++ String.mk b = String.mk (a ++ '~' :: b) := by
    intro a b
    rw [show ("~" : String) = String.mk ['~'] from rfl]
    rw [show String.mk a ++ String.mk ['~'] = String.mk (a ++ ['~']) from rfl]
    rw [show String.mk (a ++ ['~']) ++ String.mk b = String.mk ((a ++ ['~']) ++ b) from rfl]
    simp
  have hpres : sd.presentation = s := by
    unfold SdJwt.parse at h
    by_cases hlen : (splitSep '~' s.toList).length < 2
    · rw [if_pos hlen] at h
      simp at h
    · rw [if_neg hlen] at h
      match hsegs : splitSep '~' s.toList with
      | [] => rw [hsegs] at h; simp at h
      | first :: restSegs =>
        rw [hsegs] at h
        dsimp only at h
        have hs : String.mk (joinSep '~' (first :: restSegs)) = s := by
          rw [← hsegs, joinSep_splitSep]
          rfl
        have hne : restSegs ≠ [] := by
          intro hnil
          rw [hsegs, hnil] at hlen
          simp at hlen
        have hsl : s = String.mk (joinSep '~'
            (first :: (restSegs.dropLast ++ [restSegs.getLast hne]))) := by
          rw [List.dropLast_append_getLast hne]
          exact hs.symm
        match hj : Jwt.parse (String.mk first) with
        | none =>
          rw [hj] at h
          dsimp only at h
          rw [exceptBind_err] at h
          simp at h
        | some jwt =>
          rw [hj] at h
          dsimp only at h
          rw [exceptBind_ok] at h
          match hds : exceptMapM (fun seg =>
              match Disclosure.parse (String.mk seg) with
              | some d => Except.ok d
              | none => Except.error (Error.deserializationError "invalid disclosure"))
            restSegs.dropLast with
          | .error e => rw [hds] at h; rw [exceptBind_err] at h; simp at h
          | .ok discs =>
            rw [hds] at h
            rw [exceptBind_ok] at h
            obtain ⟨hmap, hsegne⟩ := exceptMapM_disclosures restSegs.dropLast discs hds
            have hjraw : jwt.raw = String.mk first := jwtParse_raw _ _ hj
            rw [List.getLast?_eq_getLast restSegs hne] at h
            dsimp only at h
            have hmapAs : discs.map Disclosure.asStr = restSegs.dropLast.map String.mk := by
              rw [show Disclosure.asStr = Disclosure.raw from rfl]
              exact hmap
            by_cases hlast : restSegs.getLast hne = []
            · rw [if_pos hlast] at h
              rw [exceptBind_ok] at h
              simp only [Except.ok.injEq] at h
              subst h
              unfold SdJwt.presentation
              dsimp only
              rw [hmapAs, intercalate_mk, hjraw]
              rw [hlast] at hsl
              match hmid : restSegs.dropLast with
              | [] =>
                rw [hmid] at hsl
                rw [if_pos (show (String.mk (joinSep '~' ([] : List (List Char))) : String)
                  = "" from rfl)]
                rw [show ("" : String) = String.mk ([] : List Char) from rfl]
                rw [hcat first []]
                rw [hsl]
                rfl
              | m0 :: ms =>
                rw [hmid] at hsl
                have hm0 : m0 ≠ [] := hsegne m0 (by rw [hmid]; exact List.mem_cons_self _ _)
                have hjs : joinSep '~' (m0 :: ms) ≠ [] := by
                  rw [joinSep_eq_flatMap]
                  intro hj0
                  rcases List.append_eq_nil.mp hj0 with ⟨h1, _⟩
                  exact hm0 h1
                rw [if_neg (by
                  intro hcon
                  rw [show (("" : String) = String.mk []) from rfl] at hcon
                  exact hjs (by
                    have := congrArg String.toList hcon
                    simpa using this))]
                rw [show ("" : String) = String.mk ([] : List Char) from rfl]
                rw [hcat first (joinSep '~' (m0 :: ms))]
                rw [hcat (first ++ '~' :: joinSep '~' (m0 :: ms)) []]
                rw [hsl]
                rw [show joinSep '~' (first :: ((m0 :: ms) ++ [[]])) =
                    first ++ '~' :: joinSep '~' ((m0 :: ms) ++ [[]]) from rfl]
                rw [joinSep_append_singleton '~' (m0 :: ms) [] (by simp)]
                simp
            · rw [if_neg hlast] at h
              match hkb : KeyBindingJwt.parse (String.mk (restSegs.getLast hne)) with
              | none =>
                rw [hkb] at h
                dsimp only at h
                rw [exceptBind_err] at h
                simp at h
              | some kbj =>
                rw [hkb] at h
                dsimp only at h
                rw [exceptBind_ok] at h
                simp only [Except.ok.injEq] at h
                subst h
                unfold SdJwt.presentation
                dsimp only
                rw [hmapAs, intercalate_mk, hjraw]
                have hkraw : kbj.raw = String.mk (restSegs.getLast hne) :=
                  kbParse_raw _ _ hkb
                match hmid : restSegs.dropLast with
                | [] =>
                  rw [hmid] at hsl
                  rw [if_pos (show (String.mk (joinSep '~' ([] : List (List Char))) : String)
                    = "" from rfl)]
                  rw [hkraw]
                  rw [hcat first (restSegs.getLast hne)]
                  rw [hsl]
                  rfl
                | m0 :: ms =>
                  rw [hmid] at hsl
                  have hm0 : m0 ≠ [] := hsegne m0 (by rw [hmid]; exact List.mem_cons_self _ _)
                  have hjs : joinSep '~' (m0 :: ms) ≠ [] := by
                    rw [joinSep_eq_flatMap]
                    intro hj0
                    rcases List.append_eq_nil.mp hj0 with ⟨h1, _⟩
                    exact hm0 h1
                  rw [if_neg (by
                    intro hcon
                    rw [show (("" : String) = String.mk []) from rfl] at hcon
                    exact hjs (by
                      have := congrArg String.toList hcon
                      simpa using this))]
                  rw [hkraw]
                  rw [hcat first (joinSep '~' (m0 :: ms))]
                  rw [hcat (first ++ '~' :: joinSep '~' (m0 :: ms)) (restSegs.getLast hne)]
                  rw [hsl]
                  rw [show joinSep '~' (first :: ((m0 :: ms) ++ [restSegs.getLast hne])) =
                      first ++ '~' :: joinSep '~' ((m0 :: ms) ++ [restSegs.getLast hne])
                    from rfl]
                  rw [joinSep_append_singleton '~' (m0 :: ms) (restSegs.getLast hne) (by simp)]
                  simp
  exact ⟨hpres, by rw [hpres]; exact h⟩

set_option maxRecDepth 1000000 in
/-- C1 witness: the round trip at the concrete two-segment SD-JWT string. -/
theorem c1_roundtrip_witness :
    SdJwt.parse c1Str = .ok c1Val ∧ c1Val.presentation = c1Str :=
  ⟨by decide, (c1_roundtrip c1Str c1Val (by decide)).1⟩
